import Mathlib

/-!
Verification of the skill-sandbox subsystem of the glyphbox repository:
the length-prefixed message transport (`src/sandbox/proxy.py`), the RPC
dispatch loop (`APIProxy`), the in-container client stub
(`docker/api_stub.py`), and the execution engine (`src/sandbox/manager.py`).

Python values crossing the boundary are JSON-serializable: `None`, booleans,
integers, strings, lists and string-keyed dicts.  Floats never cross the
boundary in the modelled protocol and are outside the embedding.  Byte
streams are modelled as `List Nat` (each entry one octet).
-/

namespace Glyphbox

/-- A JSON-compatible Python value as exchanged over the sandbox transport:
`None`, `bool`, `int`, `str`, `list`, `dict` (string keys, insertion order). -/
inductive JVal where
  | jnull : JVal
  | jbool : Bool → JVal
  | jint : Int → JVal
  | jstr : String → JVal
  | jarr : List JVal → JVal
  | jobj : List (String × JVal) → JVal

/-! ## Model of `json.dumps` with default arguments

CPython's `json.dumps(data)` uses `ensure_ascii=True` and separators
`", "` / `": "`.  Every character outside printable ASCII is written as a
`\uXXXX` escape (two escapes, a surrogate pair, for code points above
`0xFFFF`), so the output is pure ASCII. -/

/-- Lowercase hexadecimal digit character for `n % 16`, as produced by
CPython's `'\u%04x'` formatting. -/
def hexChar (n : Nat) : Char :=
  if n % 16 < 10 then Char.ofNat (48 + n % 16) else Char.ofNat (87 + n % 16)

/-- The four hex digits of `n % 0x10000`, most significant first. -/
def hexQuad (n : Nat) : List Char :=
  [hexChar (n / 4096), hexChar (n / 256), hexChar (n / 16), hexChar n]

/-- JSON escaping of one character, per CPython's
`json.encoder.py_encode_basestring_ascii`: backslash, quote and the five
short control escapes get two-character forms; other printable ASCII is kept
verbatim; everything else becomes `\uXXXX`, with a surrogate pair for
code points above `0xFFFF`. -/
def escChar (c : Char) : List Char :=
  if c = '\\' then ['\\', '\\']
  else if c = '"' then ['\\', '"']
  else if c = Char.ofNat 8 then ['\\', 'b']
  else if c = Char.ofNat 12 then ['\\', 'f']
  else if c = '\n' then ['\\', 'n']
  else if c = '\r' then ['\\', 'r']
  else if c = '\t' then ['\\', 't']
  else if 32 ≤ c.toNat ∧ c.toNat ≤ 126 then [c]
  else if c.toNat < 65536 then '\\' :: 'u' :: hexQuad c.toNat
  else
    let v := c.toNat - 65536
    ('\\' :: 'u' :: hexQuad (55296 + v / 1024)) ++ ('\\' :: 'u' :: hexQuad (56320 + v % 1024))

/-- Escape an entire string body, character by character. -/
def escBody : List Char → List Char
  | [] => []
  | c :: cs => escChar c ++ escBody cs

/-- A JSON string literal: quote, escaped body, quote. -/
def dumpStr (s : String) : List Char :=
  '"' :: (escBody s.data ++ ['"'])

/-- Decimal digit characters of a natural number, as Python's `repr`. -/
def natChars (n : Nat) : List Char :=
  if h : n < 10 then [Char.ofNat (48 + n)]
  else natChars (n / 10) ++ [Char.ofNat (48 + n % 10)]
decreasing_by exact Nat.div_lt_self (by omega) (by omega)

/-- Python integer literal text: optional minus sign then decimal digits. -/
def intChars (n : Int) : List Char :=
  if n < 0 then '-' :: natChars n.natAbs else natChars n.natAbs

mutual
/-- Model of `json.dumps` (default arguments) producing the character list of
the resulting `str`. -/
def dumpVal : JVal → List Char
  | .jnull => ['n', 'u', 'l', 'l']
  | .jbool true => ['t', 'r', 'u', 'e']
  | .jbool false => ['f', 'a', 'l', 's', 'e']
  | .jint n => intChars n
  | .jstr s => dumpStr s
  | .jarr es => '[' :: (dumpItems es ++ [']'])
  | .jobj ms => '{' :: (dumpFields ms ++ ['}'])
/-- Array items joined by the default `", "` item separator. -/
def dumpItems : List JVal → List Char
  | [] => []
  | [e] => dumpVal e
  | e :: es => dumpVal e ++ ',' :: ' ' :: dumpItems es
/-- Object members `"key": value` joined by `", "`. -/
def dumpFields : List (String × JVal) → List Char
  | [] => []
  | [(k, v)] => dumpStr k ++ ':' :: ' ' :: dumpVal v
  | (k, v) :: ms => (dumpStr k ++ ':' :: ' ' :: dumpVal v) ++ ',' :: ' ' :: dumpFields ms
end

/-! ## Model of `json.loads`

A recursive-descent reading of CPython's pure-Python scanner
(`json/scanner.py`, `json/decoder.py`): whitespace `" \t\n\r"` is skipped
between tokens, string escapes are undone (including `\uXXXX` with surrogate
pairs), and numbers accept an optional minus sign followed by digits.  Two
deliberate restrictions, both invisible on any `dumpVal` output: a number
continuing with `.`/`e`/`E` (a float) fails instead of producing a float,
and a lone surrogate escape fails instead of producing a surrogate code
unit (unrepresentable in `Char`). -/

/-- JSON whitespace per CPython's scanner (`" \t\n\r"`). -/
def isJsonWs (c : Char) : Bool :=
  c = ' ' || c = '\t' || c = '\n' || c = '\r'

/-- Drop leading JSON whitespace. -/
def wsDrop : List Char → List Char
  | [] => []
  | c :: cs => if isJsonWs c then wsDrop cs else c :: cs

/-- Numeric value of a decimal digit character, `none` for any other. -/
def decDigit (c : Char) : Option Nat :=
  if 48 ≤ c.toNat ∧ c.toNat ≤ 57 then some (c.toNat - 48) else none

/-- Numeric value of a hex digit, either case, as `int(s, 16)` accepts. -/
def hexDigit (c : Char) : Option Nat :=
  if 48 ≤ c.toNat ∧ c.toNat ≤ 57 then some (c.toNat - 48)
  else if 97 ≤ c.toNat ∧ c.toNat ≤ 102 then some (c.toNat - 87)
  else if 65 ≤ c.toNat ∧ c.toNat ≤ 70 then some (c.toNat - 55)
  else none

/-- Value of four hex digits, most significant first. -/
def hexQuadVal (a b c d : Char) : Option Nat :=
  match hexDigit a, hexDigit b, hexDigit c, hexDigit d with
  | some x, some y, some z, some w => some (((x * 16 + y) * 16 + z) * 16 + w)
  | _, _, _, _ => none

/-- Accumulate a run of decimal digits; stops at the first non-digit. -/
def digitRun (acc : Nat) : List Char → Nat × List Char
  | [] => (acc, [])
  | c :: cs =>
    match decDigit c with
    | some d => digitRun (acc * 10 + d) cs
    | none => (acc, c :: cs)

/-- True when the list starts with the given character. -/
def headIs (c : Char) : List Char → Bool
  | [] => false
  | x :: _ => x == c

/-- Parse an unsigned decimal token: a nonempty digit run.  A float
continuation (`.`/`e`/`E`) is rejected (see module comment above). -/
def scanNatToken (body : List Char) : Option (Nat × List Char) :=
  match body with
  | [] => none
  | c :: _ =>
    if (decDigit c).isSome then
      let p := digitRun 0 body
      if headIs '.' p.2 || headIs 'e' p.2 || headIs 'E' p.2 then none
      else some p
    else none

/-- Parse a JSON number: optional minus sign then a decimal token. -/
def scanNumber (input : List Char) : Option (JVal × List Char) :=
  if headIs '-' input then
    (scanNatToken input.tail).map (fun p => (.jint (-(p.1 : Int)), p.2))
  else
    (scanNatToken input).map (fun p => (.jint (p.1 : Int), p.2))

/-- The short escape table, CPython's `json.decoder.BACKSLASH` dict. -/
def escShort (e : Char) : Option Char :=
  if e = '"' then some '"'
  else if e = '\\' then some '\\'
  else if e = '/' then some '/'
  else if e = 'b' then some (Char.ofNat 8)
  else if e = 'f' then some (Char.ofNat 12)
  else if e = 'n' then some '\n'
  else if e = 'r' then some '\r'
  else if e = 't' then some '\t'
  else none

/-- Decode the hex digits following a `\u` escape introducer, joining a
high surrogate with a following `\uXXXX` low surrogate as CPython's
`py_scanstring` does.  A lone surrogate fails (see module comment). -/
def uEscape : List Char → Option (Char × List Char)
  | a :: b :: c :: d :: r =>
    match hexQuadVal a b c d with
    | none => none
    | some n =>
      if 55296 ≤ n ∧ n ≤ 56319 then
        match r with
        | '\\' :: 'u' :: a2 :: b2 :: c2 :: d2 :: r2 =>
          match hexQuadVal a2 b2 c2 d2 with
          | none => none
          | some m =>
            if 56320 ≤ m ∧ m ≤ 57343 then
              some (Char.ofNat (65536 + (n - 55296) * 1024 + (m - 56320)), r2)
            else none
        | _ => none
      else if 56320 ≤ n ∧ n ≤ 57343 then none
      else some (Char.ofNat n, r)
  | _ => none

theorem uEscape_shrinks (r : List Char) (c : Char) (r2 : List Char)
    (h : uEscape r = some (c, r2)) : r2.length + 4 ≤ r.length := by
  match r with
  | [] => exact absurd h (by simp [uEscape])
  | [a] => exact absurd h (by simp [uEscape])
  | [a, b] => exact absurd h (by simp [uEscape])
  | [a, b, c0] => exact absurd h (by simp [uEscape])
  | a :: b :: c0 :: d :: r3 =>
    simp only [uEscape] at h
    split at h
    · exact absurd h (by simp)
    · split at h
      · split at h
        · split at h
          · exact absurd h (by simp)
          · split at h
            · simp only [Option.some.injEq, Prod.mk.injEq] at h
              obtain ⟨-, hr⟩ := h
              subst hr
              simp
            · exact absurd h (by simp)
        all_goals exact absurd h (by simp)
      · split at h
        · exact absurd h (by simp)
        · simp only [Option.some.injEq, Prod.mk.injEq] at h
          obtain ⟨-, hr⟩ := h
          subst hr
          simp
/-- Parse a string body after the opening quote, undoing escapes, up to and
including the closing quote.  Mirrors `json/decoder.py py_scanstring` in
strict mode: raw control characters below `0x20` are rejected; short escapes
go through the `BACKSLASH` table (`escShort`); `\uXXXX` escapes go through
`uEscape`. -/
def scanStringBody (input : List Char) : Option (List Char × List Char) :=
  match input with
  | [] => none
  | c :: rest =>
    if c = '"' then some ([], rest)
    else if c = '\\' then
      match rest with
      | [] => none
      | e :: r =>
        if e = 'u' then
          match h : uEscape r with
          | some p => (scanStringBody p.2).map (fun q => (p.1 :: q.1, q.2))
          | none => none
        else
          match escShort e with
          | some ch => (scanStringBody r).map (fun q => (ch :: q.1, q.2))
          | none => none
    else if c.toNat < 32 then none
    else (scanStringBody rest).map (fun q => (c :: q.1, q.2))
termination_by input.length
decreasing_by
  · have hs := uEscape_shrinks _ p.1 p.2 (by rw [h])
    simp only [List.length_cons]
    omega
  · simp only [List.length_cons]
    omega
  · simp only [List.length_cons]
    omega

/-- Check that the input begins with the given literal characters and return
what follows them. -/
def afterLit : List Char → List Char → Option (List Char)
  | [], rest => some rest
  | l :: ls, c :: cs => if c = l then afterLit ls cs else none
  | _ :: _, [] => none

mutual
/-- Parse one JSON value.  `fuel` bounds the recursion; any `fuel` larger
than the input length suffices. -/
def scanValue : Nat → List Char → Option (JVal × List Char)
  | 0, _ => none
  | fuel + 1, input =>
    match wsDrop input with
    | [] => none
    | c :: cs =>
      if c = 'n' then (afterLit ['u', 'l', 'l'] cs).map (fun r => (.jnull, r))
      else if c = 't' then (afterLit ['r', 'u', 'e'] cs).map (fun r => (.jbool true, r))
      else if c = 'f' then (afterLit ['a', 'l', 's', 'e'] cs).map (fun r => (.jbool false, r))
      else if c = '"' then (scanStringBody cs).map (fun p => (.jstr ⟨p.1⟩, p.2))
      else if c = '[' then
        let inner := wsDrop cs
        if headIs ']' inner then some (.jarr [], inner.tail)
        else (scanItems fuel cs).map (fun p => (.jarr p.1, p.2))
      else if c = '{' then
        let inner := wsDrop cs
        if headIs '}' inner then some (.jobj [], inner.tail)
        else (scanFields fuel cs).map (fun p => (.jobj p.1, p.2))
      else scanNumber (c :: cs)
/-- Parse one or more comma-separated array items, consuming the closing
bracket. -/
def scanItems : Nat → List Char → Option (List JVal × List Char)
  | 0, _ => none
  | fuel + 1, input =>
    match scanValue fuel input with
    | none => none
    | some (v, r) =>
      let r2 := wsDrop r
      if headIs ',' r2 then
        (scanItems fuel r2.tail).map (fun p => (v :: p.1, p.2))
      else if headIs ']' r2 then some ([v], r2.tail)
      else none
/-- Parse one or more comma-separated `"key": value` members, consuming the
closing brace. -/
def scanFields : Nat → List Char → Option (List (String × JVal) × List Char)
  | 0, _ => none
  | fuel + 1, input =>
    match wsDrop input with
    | '"' :: cs =>
      match scanStringBody cs with
      | none => none
      | some (k, r1) =>
        match wsDrop r1 with
        | ':' :: r2 =>
          match scanValue fuel r2 with
          | none => none
          | some (v, r3) =>
            let r4 := wsDrop r3
            if headIs ',' r4 then
              (scanFields fuel r4.tail).map (fun p => ((⟨k⟩, v) :: p.1, p.2))
            else if headIs '}' r4 then some ([(⟨k⟩, v)], r4.tail)
            else none
        | _ => none
    | _ => none
end

/-- Model of `json.loads`: parse one value and require only whitespace after
it (CPython raises `Extra data` otherwise); any failure is `none` (CPython
raises `JSONDecodeError`). -/
def loads (s : List Char) : Option JVal :=
  match scanValue (s.length + 1) s with
  | some (v, rest) => if wsDrop rest = [] then some v else none
  | none => none

/-! ## Round-trip lemmas: numbers -/

theorem decDigit_char (d : Nat) (h : d < 10) :
    decDigit (Char.ofNat (48 + d)) = some d := by
  interval_cases d <;> decide

theorem natChars_cons (n : Nat) :
    ∃ c t, natChars n = c :: t ∧ (decDigit c).isSome := by
  induction n using Nat.strongRecOn with
  | _ n ih =>
    rw [natChars]
    by_cases h : n < 10
    · refine ⟨Char.ofNat (48 + n), [], by simp [h], ?_⟩
      rw [decDigit_char n h]; rfl
    · obtain ⟨c, t, hct, hc⟩ := ih (n / 10) (Nat.div_lt_self (by omega) (by omega))
      exact ⟨c, t ++ [Char.ofNat (48 + n % 10)], by simp [h, hct], hc⟩

theorem digitRun_natChars (n : Nat) : ∀ (acc : Nat) (rest : List Char),
    digitRun acc (natChars n ++ rest)
      = digitRun (acc * 10 ^ (natChars n).length + n) rest := by
  induction n using Nat.strongRecOn with
  | _ n ih =>
    intro acc rest
    rw [natChars]
    by_cases h : n < 10
    · simp only [dif_pos h, List.cons_append, List.nil_append, digitRun,
        decDigit_char n h, List.length_cons, List.length_nil]
      norm_num
    · simp only [dif_neg h, List.append_assoc, List.cons_append, List.nil_append]
      rw [ih (n / 10) (Nat.div_lt_self (by omega) (by omega))]
      simp only [digitRun, decDigit_char (n % 10) (Nat.mod_lt n (by omega)),
        List.length_append, List.length_cons, List.length_nil]
      congr 1
      rw [show (natChars (n / 10)).length + (0 + 1) = (natChars (n / 10)).length + 1 by omega,
        pow_succ, ← mul_assoc]
      generalize acc * (10 : Nat) ^ (natChars (n / 10)).length = B
      omega

/-- A tail that cannot extend a number token: empty, or led by a character
that is no digit and none of `.`, `e`, `E`.  Every position a value's text
occupies in `dumpVal` output is followed by such a tail (`,`, `]`, `}`, or
end of input). -/
def numStop : List Char → Bool
  | [] => true
  | c :: _ => (decDigit c).isNone && !(c == '.') && !(c == 'e') && !(c == 'E')

theorem digitRun_stop (acc : Nat) (rest : List Char) (h : numStop rest = true) :
    digitRun acc rest = (acc, rest) := by
  cases rest with
  | nil => rfl
  | cons c t =>
    simp only [numStop, Bool.and_eq_true, Option.isNone_iff_eq_none] at h
    simp [digitRun, h.1.1.1]

theorem numStop_heads (rest : List Char) (h : numStop rest = true) :
    headIs '.' rest = false ∧ headIs 'e' rest = false ∧ headIs 'E' rest = false := by
  cases rest with
  | nil => exact ⟨rfl, rfl, rfl⟩
  | cons c t =>
    simp only [numStop, Bool.and_eq_true, Bool.not_eq_eq_eq_not, Bool.not_true] at h
    exact ⟨h.1.1.2, h.1.2, h.2⟩

theorem decDigit_bounds (c : Char) (h : (decDigit c).isSome) :
    48 ≤ c.toNat ∧ c.toNat ≤ 57 := by
  by_cases hb : 48 ≤ c.toNat ∧ c.toNat ≤ 57
  · exact hb
  · simp [decDigit, hb] at h

theorem digit_not_ws (c : Char) (h : (decDigit c).isSome) : isJsonWs c = false := by
  have hb := decDigit_bounds c h
  simp only [isJsonWs, Bool.or_eq_false_iff, decide_eq_false_iff_not]
  refine ⟨⟨⟨?_, ?_⟩, ?_⟩, ?_⟩ <;> (intro hc; subst hc; exact absurd hb (by decide))

theorem digit_headIs_false (c : Char) (x : Char) (t : List Char)
    (h : (decDigit c).isSome) (hx : 48 ≤ x.toNat → x.toNat ≤ 57 → False) :
    headIs x (c :: t) = false := by
  have hb := decDigit_bounds c h
  simp only [headIs, beq_eq_false_iff_ne, ne_eq]
  intro hc
  subst hc
  exact hx hb.1 hb.2

theorem scanNatToken_natChars (m : Nat) (rest : List Char) (h : numStop rest = true) :
    scanNatToken (natChars m ++ rest) = some (m, rest) := by
  obtain ⟨c, t, hct, hc⟩ := natChars_cons m
  have hbody : natChars m ++ rest = c :: (t ++ rest) := by rw [hct]; rfl
  obtain ⟨h1, h2, h3⟩ := numStop_heads rest h
  have hrun : digitRun 0 (natChars m ++ rest) = (m, rest) := by
    rw [digitRun_natChars m 0 rest, digitRun_stop _ _ h, Nat.zero_mul, Nat.zero_add]
  rw [hbody] at hrun
  rw [hbody]
  simp only [scanNatToken, hc, if_pos rfl, hrun, h1, h2, h3]
  rfl

theorem scanNumber_intChars (n : Int) (rest : List Char) (h : numStop rest = true) :
    scanNumber (intChars n ++ rest) = some (.jint n, rest) := by
  by_cases hn : n < 0
  · have harg : intChars n ++ rest = '-' :: (natChars n.natAbs ++ rest) := by
      simp [intChars, hn]
    rw [harg]
    have hsign : headIs '-' ('-' :: (natChars n.natAbs ++ rest)) = true := rfl
    simp only [scanNumber, hsign, if_pos rfl, List.tail_cons,
      scanNatToken_natChars n.natAbs rest h]
    have hval : -(n.natAbs : Int) = n := by omega
    simp only [if_true, Option.map_some', Option.some.injEq, Prod.mk.injEq,
      JVal.jint.injEq, and_true]
    exact hval
  · have harg : intChars n ++ rest = natChars n.natAbs ++ rest := by
      simp [intChars, hn]
    obtain ⟨c, t, hct, hc⟩ := natChars_cons n.natAbs
    have hbody : natChars n.natAbs ++ rest = c :: (t ++ rest) := by rw [hct]; rfl
    have hsign : headIs '-' (natChars n.natAbs ++ rest) = false := by
      rw [hbody]
      exact digit_headIs_false c '-' (t ++ rest) hc (by decide)
    rw [harg]
    simp only [scanNumber, hsign, if_neg Bool.false_ne_true,
      scanNatToken_natChars n.natAbs rest h]
    have hval : (n.natAbs : Int) = n := by omega
    simp only [if_true, Option.map_some', Option.some.injEq, Prod.mk.injEq,
      JVal.jint.injEq, and_true]
    exact hval

/-! ## Round-trip lemmas: strings -/

theorem hexDigit_hexChar_lt (k : Nat) (h : k < 16) : hexDigit (hexChar k) = some k := by
  interval_cases k <;> decide

theorem hexChar_mod (m : Nat) : hexChar m = hexChar (m % 16) := by
  simp [hexChar, Nat.mod_mod_of_dvd]

theorem hexDigit_hexChar (m : Nat) : hexDigit (hexChar m) = some (m % 16) := by
  rw [hexChar_mod]
  exact hexDigit_hexChar_lt (m % 16) (Nat.mod_lt m (by omega))

theorem hexQuadVal_hexQuad (n : Nat) (h : n < 65536) :
    hexQuadVal (hexChar (n / 4096)) (hexChar (n / 256)) (hexChar (n / 16)) (hexChar n)
      = some n := by
  simp only [hexQuadVal, hexDigit_hexChar]
  congr 1
  omega

theorem char_valid_nat (c : Char) :
    c.toNat < 55296 ∨ (57343 < c.toNat ∧ c.toNat < 1114112) := c.valid

theorem scanStringBody_quote (rest : List Char) :
    scanStringBody ('"' :: rest) = some ([], rest) := by
  rw [scanStringBody.eq_def]
  simp

theorem scanStringBody_plain (c : Char) (t : List Char)
    (h1 : ¬c = '"') (h2 : ¬c = '\\') (h3 : ¬c.toNat < 32) :
    scanStringBody (c :: t) = (scanStringBody t).map (fun q => (c :: q.1, q.2)) := by
  rw [scanStringBody.eq_def]
  simp [h1, h2, h3]

theorem scanStringBody_short (e ch : Char) (t : List Char)
    (hu : ¬e = 'u') (he : escShort e = some ch) :
    scanStringBody ('\\' :: e :: t)
      = (scanStringBody t).map (fun q => (ch :: q.1, q.2)) := by
  rw [scanStringBody.eq_def]
  simp +decide [hu, he]

theorem scanStringBody_uEsc (r : List Char) (p : Char × List Char)
    (h : uEscape r = some p) :
    scanStringBody ('\\' :: 'u' :: r)
      = (scanStringBody p.2).map (fun q => (p.1 :: q.1, q.2)) := by
  rw [scanStringBody.eq_def]
  simp +decide
  split
  · rename_i p2 hp2
    rw [h] at hp2
    cases hp2
    rfl
  · rename_i hp2
    rw [h] at hp2
    cases hp2

theorem uEscape_bmp (n : Nat) (t : List Char) (hn : n < 65536)
    (hs : ¬(55296 ≤ n ∧ n ≤ 57343)) :
    uEscape (hexQuad n ++ t) = some (Char.ofNat n, t) := by
  have hq : hexQuad n ++ t
      = hexChar (n / 4096) :: hexChar (n / 256) :: hexChar (n / 16) :: hexChar n :: t := by
    simp [hexQuad]
  rw [hq]
  simp only [uEscape, hexQuadVal_hexQuad n hn,
    if_neg (by omega : ¬(55296 ≤ n ∧ n ≤ 56319)),
    if_neg (by omega : ¬(56320 ≤ n ∧ n ≤ 57343))]

theorem uEscape_pair (n m : Nat) (t : List Char)
    (hn : 55296 ≤ n ∧ n ≤ 56319) (hm : 56320 ≤ m ∧ m ≤ 57343) :
    uEscape (hexQuad n ++ '\\' :: 'u' :: hexQuad m ++ t)
      = some (Char.ofNat (65536 + (n - 55296) * 1024 + (m - 56320)), t) := by
  have hq : hexQuad n ++ '\\' :: 'u' :: hexQuad m ++ t
      = hexChar (n / 4096) :: hexChar (n / 256) :: hexChar (n / 16) :: hexChar n
        :: '\\' :: 'u' :: hexChar (m / 4096) :: hexChar (m / 256) :: hexChar (m / 16)
        :: hexChar m :: t := by
    simp [hexQuad]
  rw [hq]
  simp only [uEscape, hexQuadVal_hexQuad n (by omega), hexQuadVal_hexQuad m (by omega),
    if_pos hn, if_pos hm]

theorem scanStringBody_escChar (c : Char) (t : List Char) :
    scanStringBody (escChar c ++ t)
      = (scanStringBody t).map (fun p => (c :: p.1, p.2)) := by
  by_cases h1 : c = '\\'
  · subst h1
    have he : escChar '\\' = ['\\', '\\'] := by decide
    rw [he]
    exact scanStringBody_short '\\' '\\' t (by decide) (by decide)
  by_cases h2 : c = '"'
  · subst h2
    have he : escChar '"' = ['\\', '"'] := by decide
    rw [he]
    exact scanStringBody_short '"' '"' t (by decide) (by decide)
  by_cases h3 : c = Char.ofNat 8
  · subst h3
    have he : escChar (Char.ofNat 8) = ['\\', 'b'] := by decide
    rw [he]
    exact scanStringBody_short 'b' (Char.ofNat 8) t (by decide) (by decide)
  by_cases h4 : c = Char.ofNat 12
  · subst h4
    have he : escChar (Char.ofNat 12) = ['\\', 'f'] := by decide
    rw [he]
    exact scanStringBody_short 'f' (Char.ofNat 12) t (by decide) (by decide)
  by_cases h5 : c = '\n'
  · subst h5
    have he : escChar '\n' = ['\\', 'n'] := by decide
    rw [he]
    exact scanStringBody_short 'n' '\n' t (by decide) (by decide)
  by_cases h6 : c = '\r'
  · subst h6
    have he : escChar '\r' = ['\\', 'r'] := by decide
    rw [he]
    exact scanStringBody_short 'r' '\r' t (by decide) (by decide)
  by_cases h7 : c = '\t'
  · subst h7
    have he : escChar '\t' = ['\\', 't'] := by decide
    rw [he]
    exact scanStringBody_short 't' '\t' t (by decide) (by decide)
  by_cases h8 : 32 ≤ c.toNat ∧ c.toNat ≤ 126
  · have he : escChar c ++ t = c :: t := by
      simp [escChar, h1, h2, h3, h4, h5, h6, h7, h8]
    rw [he]
    exact scanStringBody_plain c t h2 h1 (by omega)
  by_cases h9 : c.toNat < 65536
  · have hval := char_valid_nat c
    have he : escChar c ++ t = '\\' :: 'u' :: (hexQuad c.toNat ++ t) := by
      simp [escChar, h1, h2, h3, h4, h5, h6, h7, h8, h9]
    rw [he, scanStringBody_uEsc _ (Char.ofNat c.toNat, t)
      (uEscape_bmp c.toNat t h9 (by omega))]
    simp [Char.ofNat_toNat]
  · have hval := char_valid_nat c
    have hmlt := Nat.mod_lt (c.toNat - 65536) (y := 1024) (by omega)
    have he : escChar c ++ t
        = '\\' :: 'u' :: (hexQuad (55296 + (c.toNat - 65536) / 1024)
            ++ '\\' :: 'u' :: hexQuad (56320 + (c.toNat - 65536) % 1024) ++ t) := by
      simp [escChar, h1, h2, h3, h4, h5, h6, h7, h8, h9]
    have hhi : 55296 ≤ 55296 + (c.toNat - 65536) / 1024
        ∧ 55296 + (c.toNat - 65536) / 1024 ≤ 56319 := by omega
    have hlo : 56320 ≤ 56320 + (c.toNat - 65536) % 1024
        ∧ 56320 + (c.toNat - 65536) % 1024 ≤ 57343 := by omega
    have hcomb : 65536 + (55296 + (c.toNat - 65536) / 1024 - 55296) * 1024
        + (56320 + (c.toNat - 65536) % 1024 - 56320) = c.toNat := by
      have := Nat.div_add_mod (c.toNat - 65536) 1024
      omega
    rw [he, scanStringBody_uEsc _ _
      (uEscape_pair (55296 + (c.toNat - 65536) / 1024)
        (56320 + (c.toNat - 65536) % 1024) t hhi hlo)]
    rw [hcomb, Char.ofNat_toNat]

theorem scanStringBody_escBody (l : List Char) : ∀ rest : List Char,
    scanStringBody (escBody l ++ '"' :: rest) = some (l, rest) := by
  induction l with
  | nil =>
    intro rest
    rw [escBody, List.nil_append]
    exact scanStringBody_quote rest
  | cons c cs ih =>
    intro rest
    rw [escBody, List.append_assoc, scanStringBody_escChar, ih]
    rfl

theorem scanStringBody_dumpStr (s : String) (rest : List Char) :
    scanStringBody (escBody s.data ++ '"' :: rest) = some (s.data, rest) :=
  scanStringBody_escBody s.data rest

/-! ## Round-trip lemmas: values -/

theorem string_eta (s : String) : String.mk s.data = s := rfl

theorem wsDrop_cons (c : Char) (t : List Char) (h : isJsonWs c = false) :
    wsDrop (c :: t) = c :: t := by
  rw [wsDrop]
  simp [h]

theorem digit_ne (c x : Char) (h : (decDigit c).isSome)
    (hx : x.toNat < 48 ∨ 57 < x.toNat) : ¬c = x := by
  intro hc
  subst hc
  have := decDigit_bounds c h
  omega

theorem dumpVal_head (v : JVal) :
    ∃ c t, dumpVal v = c :: t ∧ isJsonWs c = false ∧ ¬c = ']' := by
  cases v with
  | jnull => exact ⟨'n', _, rfl, by decide, by decide⟩
  | jbool b =>
    cases b with
    | true => exact ⟨'t', _, rfl, by decide, by decide⟩
    | false => exact ⟨'f', _, rfl, by decide, by decide⟩
  | jint n =>
    by_cases hn : n < 0
    · refine ⟨'-', natChars n.natAbs, ?_, by decide, by decide⟩
      simp [dumpVal, intChars, hn]
    · obtain ⟨c, t, hct, hc⟩ := natChars_cons n.natAbs
      refine ⟨c, t, ?_, digit_not_ws c hc, digit_ne c ']' hc (by decide)⟩
      simp [dumpVal, intChars, hn, hct]
  | jstr s => exact ⟨'"', _, rfl, by decide, by decide⟩
  | jarr es => exact ⟨'[', _, rfl, by decide, by decide⟩
  | jobj ms => exact ⟨'{', _, rfl, by decide, by decide⟩

theorem dumpVal_length_pos (v : JVal) : 1 ≤ (dumpVal v).length := by
  obtain ⟨c, t, hct, -, -⟩ := dumpVal_head v
  rw [hct]
  simp

theorem wsDrop_dumpVal (v : JVal) (X : List Char) :
    wsDrop (dumpVal v ++ X) = dumpVal v ++ X := by
  obtain ⟨c, t, hct, hws, -⟩ := dumpVal_head v
  rw [hct, List.cons_append, wsDrop_cons c _ hws]

theorem headIs_bracket_dumpVal (v : JVal) (X : List Char) :
    headIs ']' (dumpVal v ++ X) = false := by
  obtain ⟨c, t, hct, -, hbr⟩ := dumpVal_head v
  rw [hct, List.cons_append]
  simp [headIs, hbr]

theorem scanValue_ws (fuel : Nat) (w : Char) (X : List Char) (h : isJsonWs w = true) :
    scanValue fuel (w :: X) = scanValue fuel X := by
  cases fuel with
  | zero => rfl
  | succ f =>
    simp only [scanValue]
    rw [wsDrop]
    simp [h]

theorem scanItems_ws (fuel : Nat) (w : Char) (X : List Char) (h : isJsonWs w = true) :
    scanItems fuel (w :: X) = scanItems fuel X := by
  cases fuel with
  | zero => rfl
  | succ f =>
    simp only [scanItems]
    rw [scanValue_ws f w X h]

theorem scanFields_ws (fuel : Nat) (w : Char) (X : List Char) (h : isJsonWs w = true) :
    scanFields fuel (w :: X) = scanFields fuel X := by
  cases fuel with
  | zero => rfl
  | succ f =>
    simp only [scanFields]
    rw [wsDrop]
    simp [h]


theorem rt_null (f : Nat) (rest : List Char) :
    scanValue (f + 1) (dumpVal .jnull ++ rest) = some (.jnull, rest) := by
  show scanValue (f + 1) ('n' :: 'u' :: 'l' :: 'l' :: rest) = some (.jnull, rest)
  simp only [scanValue, wsDrop_cons 'n' _ (by decide)]
  simp +decide [afterLit]

theorem rt_bool (f : Nat) (b : Bool) (rest : List Char) :
    scanValue (f + 1) (dumpVal (.jbool b) ++ rest) = some (.jbool b, rest) := by
  cases b with
  | true =>
    show scanValue (f + 1) ('t' :: 'r' :: 'u' :: 'e' :: rest) = _
    simp only [scanValue, wsDrop_cons 't' _ (by decide)]
    simp +decide [afterLit]
  | false =>
    show scanValue (f + 1) ('f' :: 'a' :: 'l' :: 's' :: 'e' :: rest) = _
    simp only [scanValue, wsDrop_cons 'f' _ (by decide)]
    simp +decide [afterLit]

theorem rt_str (f : Nat) (s : String) (rest : List Char) :
    scanValue (f + 1) (dumpVal (.jstr s) ++ rest) = some (.jstr s, rest) := by
  have harg : dumpVal (.jstr s) ++ rest
      = '"' :: (escBody s.data ++ '"' :: rest) := by
    simp [dumpVal, dumpStr]
  rw [harg]
  simp only [scanValue, wsDrop_cons '"' _ (by decide)]
  simp +decide [scanStringBody_dumpStr s rest, string_eta]

theorem rt_int (f : Nat) (n : Int) (rest : List Char) (h : numStop rest = true) :
    scanValue (f + 1) (dumpVal (.jint n) ++ rest) = some (.jint n, rest) := by
  obtain ⟨c, t, hct, hws, -⟩ := dumpVal_head (.jint n)
  have hd : dumpVal (.jint n) = intChars n := rfl
  rw [hd] at hct
  have hcases : c = '-' ∨ (decDigit c).isSome := by
    by_cases hn : n < 0
    · left
      have : intChars n = '-' :: natChars n.natAbs := by simp [intChars, hn]
      rw [this] at hct
      exact (List.cons.injEq .. ▸ hct).1.symm ▸ rfl
    · right
      obtain ⟨c2, t2, hct2, hc2⟩ := natChars_cons n.natAbs
      have : intChars n = c2 :: t2 := by simp [intChars, hn, hct2]
      rw [this] at hct
      cases hct
      exact hc2
  have harg : dumpVal (.jint n) ++ rest = c :: (t ++ rest) := by
    rw [hd, hct]
    rfl
  rw [harg]
  simp only [scanValue, wsDrop_cons c _ hws]
  have hnotn : (c = 'n') = False := by
    rcases hcases with hc | hc
    · subst hc; simp
    · simpa using digit_ne c 'n' hc (by decide)
  have hnott : (c = 't') = False := by
    rcases hcases with hc | hc
    · subst hc; simp
    · simpa using digit_ne c 't' hc (by decide)
  have hnotf : (c = 'f') = False := by
    rcases hcases with hc | hc
    · subst hc; simp
    · simpa using digit_ne c 'f' hc (by decide)
  have hnotq : (c = '"') = False := by
    rcases hcases with hc | hc
    · subst hc; simp
    · simpa using digit_ne c '"' hc (by decide)
  have hnotbk : (c = '[') = False := by
    rcases hcases with hc | hc
    · subst hc; simp
    · simpa using digit_ne c '[' hc (by decide)
  have hnotbc : (c = '{') = False := by
    rcases hcases with hc | hc
    · subst hc; simp
    · simpa using digit_ne c '{' hc (by decide)
  simp only [hnotn, hnott, hnotf, hnotq, hnotbk, hnotbc, if_false]
  rw [← harg, hd]
  exact scanNumber_intChars n rest h


theorem dumpItems_single (e : JVal) : dumpItems [e] = dumpVal e := rfl

theorem dumpItems_multi (e y : JVal) (t : List JVal) :
    dumpItems (e :: y :: t) = dumpVal e ++ ',' :: ' ' :: dumpItems (y :: t) := rfl

theorem dumpFields_single (k : String) (v : JVal) :
    dumpFields [(k, v)] = dumpStr k ++ ':' :: ' ' :: dumpVal v := rfl

theorem dumpFields_multi (k : String) (v : JVal) (m : String × JVal)
    (t : List (String × JVal)) :
    dumpFields ((k, v) :: m :: t)
      = (dumpStr k ++ ':' :: ' ' :: dumpVal v) ++ ',' :: ' ' :: dumpFields (m :: t) := rfl

theorem dumpItems_length_pos (e : JVal) (es : List JVal) :
    1 ≤ (dumpItems (e :: es)).length := by
  cases es with
  | nil =>
    rw [dumpItems_single]
    exact dumpVal_length_pos e
  | cons y t =>
    rw [dumpItems_multi]
    have := dumpVal_length_pos e
    simp
    omega

theorem dumpFields_length_ge (k : String) (v : JVal) (ms : List (String × JVal)) :
    (dumpStr k).length + 2 + (dumpVal v).length ≤ (dumpFields ((k, v) :: ms)).length := by
  cases ms with
  | nil =>
    rw [dumpFields_single]
    simp
    omega
  | cons m t =>
    rw [dumpFields_multi]
    simp
    omega

theorem dumpItems_head_ok (e : JVal) (es : List JVal) (X : List Char) :
    wsDrop (dumpItems (e :: es) ++ X) = dumpItems (e :: es) ++ X
    ∧ headIs ']' (dumpItems (e :: es) ++ X) = false := by
  cases es with
  | nil =>
    rw [dumpItems_single]
    exact ⟨wsDrop_dumpVal e X, headIs_bracket_dumpVal e X⟩
  | cons y t =>
    rw [dumpItems_multi, List.append_assoc]
    exact ⟨wsDrop_dumpVal e _, headIs_bracket_dumpVal e _⟩

theorem dumpFields_head_ok (k : String) (v : JVal) (ms : List (String × JVal))
    (X : List Char) :
    wsDrop (dumpFields ((k, v) :: ms) ++ X) = dumpFields ((k, v) :: ms) ++ X
    ∧ headIs '}' (dumpFields ((k, v) :: ms) ++ X) = false := by
  cases ms with
  | nil =>
    rw [dumpFields_single, dumpStr]
    constructor
    · simp only [List.cons_append, wsDrop_cons '"' _ (by decide)]
    · simp only [List.cons_append, headIs]
      decide
  | cons m t =>
    rw [dumpFields_multi, dumpStr]
    constructor
    · simp only [List.cons_append, List.append_assoc, wsDrop_cons '"' _ (by decide)]
    · simp only [List.cons_append, List.append_assoc, headIs]
      decide

theorem scan_dump_rt (fuel : Nat) :
    (∀ v rest, (dumpVal v).length < fuel → numStop rest = true →
      scanValue fuel (dumpVal v ++ rest) = some (v, rest))
  ∧ (∀ e es rest, (dumpItems (e :: es)).length + 1 < fuel →
      scanItems fuel (dumpItems (e :: es) ++ ']' :: rest) = some (e :: es, rest))
  ∧ (∀ k v ms rest, (dumpFields ((k, v) :: ms)).length + 1 < fuel →
      scanFields fuel (dumpFields ((k, v) :: ms) ++ '}' :: rest)
        = some ((k, v) :: ms, rest)) := by
  induction fuel with
  | zero =>
    refine ⟨fun v rest hlen _ => absurd hlen (by omega),
      fun e es rest hlen => absurd hlen (by omega),
      fun k v ms rest hlen => absurd hlen (by omega)⟩
  | succ f ih =>
    obtain ⟨ihV, ihI, ihF⟩ := ih
    refine ⟨?_, ?_, ?_⟩
    · intro v rest hlen hstop
      match v with
      | .jnull => exact rt_null f rest
      | .jbool b => exact rt_bool f b rest
      | .jint n => exact rt_int f n rest hstop
      | .jstr s => exact rt_str f s rest
      | .jarr [] =>
        show scanValue (f + 1) ('[' :: ']' :: rest) = some (.jarr [], rest)
        simp only [scanValue, wsDrop_cons '[' _ (by decide)]
        simp +decide [wsDrop_cons ']' rest (by decide), headIs]
      | .jarr (e :: es) =>
        have harg : dumpVal (.jarr (e :: es)) ++ rest
            = '[' :: (dumpItems (e :: es) ++ ']' :: rest) := by
          simp [dumpVal]
        obtain ⟨hws, hbr⟩ := dumpItems_head_ok e es (']' :: rest)
        have hlen2 : (dumpItems (e :: es)).length + 1 < f := by
          have : (dumpVal (.jarr (e :: es))).length
              = (dumpItems (e :: es)).length + 2 := by
            simp [dumpVal]
          omega
        rw [harg]
        simp only [scanValue, wsDrop_cons '[' _ (by decide)]
        simp +decide only []
        rw [hws]
        simp only [if_true, if_false, hbr, Bool.false_eq_true, ihI e es rest hlen2,
          Option.map_some']
      | .jobj [] =>
        show scanValue (f + 1) ('{' :: '}' :: rest) = some (.jobj [], rest)
        simp only [scanValue, wsDrop_cons '{' _ (by decide)]
        simp +decide [wsDrop_cons '}' rest (by decide), headIs]
      | .jobj ((k, v2) :: ms) =>
        have harg : dumpVal (.jobj ((k, v2) :: ms)) ++ rest
            = '{' :: (dumpFields ((k, v2) :: ms) ++ '}' :: rest) := by
          simp [dumpVal]
        obtain ⟨hws, hbr⟩ := dumpFields_head_ok k v2 ms ('}' :: rest)
        have hlen2 : (dumpFields ((k, v2) :: ms)).length + 1 < f := by
          have : (dumpVal (.jobj ((k, v2) :: ms))).length
              = (dumpFields ((k, v2) :: ms)).length + 2 := by
            simp [dumpVal]
          omega
        rw [harg]
        simp only [scanValue, wsDrop_cons '{' _ (by decide)]
        simp +decide only []
        rw [hws]
        simp only [if_true, if_false, hbr, Bool.false_eq_true,
          ihF k v2 ms rest hlen2, Option.map_some']
    · intro e es rest hlen
      match es with
      | [] =>
        rw [dumpItems_single] at hlen ⊢
        have hv := ihV e (']' :: rest) (by omega) (by rfl)
        simp only [scanItems, hv]
        simp +decide [wsDrop_cons ']' rest (by decide), headIs]
      | y :: t =>
        rw [dumpItems_multi] at hlen ⊢
        have hlenV : (dumpVal e).length < f := by
          simp at hlen
          omega
        have hlenI : (dumpItems (y :: t)).length + 1 < f := by
          have := dumpVal_length_pos e
          simp at hlen
          omega
        have hv := ihV e (',' :: ' ' :: (dumpItems (y :: t) ++ ']' :: rest)) hlenV (by rfl)
        have hsplit : (dumpVal e ++ ',' :: ' ' :: dumpItems (y :: t)) ++ ']' :: rest
            = dumpVal e ++ (',' :: ' ' :: (dumpItems (y :: t) ++ ']' :: rest)) := by
          simp
        rw [hsplit]
        simp only [scanItems, hv]
        simp only [wsDrop_cons ',' _ (by decide)]
        simp +decide only [headIs, List.tail_cons]
        rw [scanItems_ws f ' ' _ (by decide), ihI y t rest hlenI]
        rfl
    · intro k v ms rest hlen
      match ms with
      | [] =>
        rw [dumpFields_single] at hlen ⊢
        have hlenV : (dumpVal v).length < f := by
          simp [dumpStr] at hlen
          omega
        have hshape : (dumpStr k ++ ':' :: ' ' :: dumpVal v) ++ '}' :: rest
            = '"' :: (escBody k.data ++ '"'
                :: (':' :: ' ' :: (dumpVal v ++ '}' :: rest))) := by
          simp [dumpStr]
        rw [hshape]
        simp only [scanFields, wsDrop_cons '"' _ (by decide),
          scanStringBody_dumpStr k]
        simp only [wsDrop_cons ':' _ (by decide)]
        rw [scanValue_ws f ' ' _ (by decide), ihV v ('}' :: rest) hlenV (by rfl)]
        simp +decide [wsDrop_cons '}' rest (by decide), headIs]
      | m2 :: t =>
        rw [dumpFields_multi] at hlen ⊢
        have hlenV : (dumpVal v).length < f := by
          simp [dumpStr] at hlen
          omega
        have hlenF : (dumpFields (m2 :: t)).length + 1 < f := by
          have hp := dumpVal_length_pos v
          have hq : 1 ≤ (dumpFields (m2 :: t)).length := by
            match m2 with
            | (k2, v2) => exact le_trans (by omega) (dumpFields_length_ge k2 v2 t)
          simp [dumpStr] at hlen
          omega
        have hshape : ((dumpStr k ++ ':' :: ' ' :: dumpVal v)
              ++ ',' :: ' ' :: dumpFields (m2 :: t)) ++ '}' :: rest
            = '"' :: (escBody k.data ++ '"'
                :: (':' :: ' ' :: (dumpVal v
                  ++ ',' :: ' ' :: (dumpFields (m2 :: t) ++ '}' :: rest)))) := by
          simp [dumpStr]
        rw [hshape]
        simp only [scanFields, wsDrop_cons '"' _ (by decide),
          scanStringBody_dumpStr k]
        simp only [wsDrop_cons ':' _ (by decide)]
        rw [scanValue_ws f ' ' _ (by decide),
          ihV v (',' :: ' ' :: (dumpFields (m2 :: t) ++ '}' :: rest)) hlenV (by rfl)]
        simp only [wsDrop_cons ',' _ (by decide)]
        simp +decide only [headIs, List.tail_cons]
        rw [scanFields_ws f ' ' _ (by decide)]
        match m2 with
        | (k2, v2) =>
          rw [ihF k2 v2 t rest hlenF]
          rfl

/-- Model of `json.dumps` as a `String`. -/
def dumps (v : JVal) : String := ⟨dumpVal v⟩

/-- The JSON codec round-trip: `json.loads` inverts `json.dumps` on every
JSON-compatible value. -/
theorem loads_dumpVal (v : JVal) : loads (dumpVal v) = some v := by
  unfold loads
  have h := (scan_dump_rt ((dumpVal v).length + 1)).1 v [] (by omega) (by rfl)
  rw [List.append_nil] at h
  rw [h]
  rfl

/-! ## ASCII output of `dumps`, and the UTF-8 byte layer

`json.dumps` with `ensure_ascii=True` emits printable ASCII only, so
`str.encode("utf-8")` is one byte per character on its output. -/

theorem hexChar_ascii (n : Nat) : (hexChar n).toNat ≤ 126 := by
  rw [hexChar_mod]
  have h : n % 16 < 16 := Nat.mod_lt n (by omega)
  interval_cases h2 : n % 16 <;> decide

theorem natChars_ascii (n : Nat) : ∀ c ∈ natChars n, c.toNat ≤ 126 := by
  induction n using Nat.strongRecOn with
  | _ n ih =>
    rw [natChars]
    by_cases h : n < 10
    · simp only [dif_pos h, List.mem_singleton]
      intro c hc
      subst hc
      interval_cases n <;> decide
    · simp only [dif_neg h, List.mem_append, List.mem_singleton]
      intro c hc
      rcases hc with hc | hc
      · exact ih (n / 10) (Nat.div_lt_self (by omega) (by omega)) c hc
      · subst hc
        have h10 : n % 10 < 10 := Nat.mod_lt n (by omega)
        interval_cases h2 : n % 10 <;> decide

theorem intChars_ascii (n : Int) : ∀ c ∈ intChars n, c.toNat ≤ 126 := by
  unfold intChars
  by_cases h : n < 0
  · simp only [if_pos h, List.mem_cons]
    intro c hc
    rcases hc with hc | hc
    · subst hc; decide
    · exact natChars_ascii n.natAbs c hc
  · simp only [if_neg h]
    exact natChars_ascii n.natAbs

theorem uQuad_ascii (n : Nat) : ∀ x ∈ '\\' :: 'u' :: hexQuad n, x.toNat ≤ 126 := by
  intro x hx
  simp only [hexQuad, List.mem_cons] at hx
  rcases hx with rfl | rfl | rfl | rfl | rfl | rfl | hx
  · decide
  · decide
  · exact hexChar_ascii _
  · exact hexChar_ascii _
  · exact hexChar_ascii _
  · exact hexChar_ascii _
  · cases hx

theorem uPair_ascii (hi lo : Nat) :
    ∀ x ∈ ('\\' :: 'u' :: hexQuad hi) ++ ('\\' :: 'u' :: hexQuad lo), x.toNat ≤ 126 := by
  intro x hx
  rw [List.mem_append] at hx
  rcases hx with hx | hx
  · exact uQuad_ascii hi x hx
  · exact uQuad_ascii lo x hx

theorem escChar_ascii (c : Char) : ∀ x ∈ escChar c, x.toNat ≤ 126 := by
  unfold escChar
  split_ifs with h1 h2 h3 h4 h5 h6 h7 h8 h9
  · intro x hx; fin_cases hx <;> decide
  · intro x hx; fin_cases hx <;> decide
  · intro x hx; fin_cases hx <;> decide
  · intro x hx; fin_cases hx <;> decide
  · intro x hx; fin_cases hx <;> decide
  · intro x hx; fin_cases hx <;> decide
  · intro x hx; fin_cases hx <;> decide
  · intro x hx
    rw [List.mem_singleton] at hx
    subst hx
    omega
  · exact uQuad_ascii c.toNat
  · exact uPair_ascii (55296 + (c.toNat - 65536) / 1024) (56320 + (c.toNat - 65536) % 1024)

theorem escBody_ascii (l : List Char) : ∀ x ∈ escBody l, x.toNat ≤ 126 := by
  induction l with
  | nil => intro x hx; cases hx
  | cons c cs ih =>
    intro x hx
    rw [escBody, List.mem_append] at hx
    rcases hx with hx | hx
    · exact escChar_ascii c x hx
    · exact ih x hx

theorem dumpStr_ascii (s : String) : ∀ x ∈ dumpStr s, x.toNat ≤ 126 := by
  intro x hx
  rw [dumpStr, List.mem_cons] at hx
  rcases hx with rfl | hx
  · decide
  · rw [List.mem_append, List.mem_singleton] at hx
    rcases hx with hx | rfl
    · exact escBody_ascii s.data x hx
    · decide

mutual
theorem dumpVal_ascii (v : JVal) : ∀ x ∈ dumpVal v, x.toNat ≤ 126 :=
  match v with
  | .jnull => by intro x hx; fin_cases hx <;> decide
  | .jbool true => by intro x hx; fin_cases hx <;> decide
  | .jbool false => by intro x hx; fin_cases hx <;> decide
  | .jint n => intChars_ascii n
  | .jstr s => dumpStr_ascii s
  | .jarr es => by
    intro x hx
    rw [dumpVal, List.mem_cons] at hx
    rcases hx with rfl | hx
    · decide
    · rw [List.mem_append, List.mem_singleton] at hx
      rcases hx with hx | rfl
      · exact dumpItems_ascii es x hx
      · decide
  | .jobj ms => by
    intro x hx
    rw [dumpVal, List.mem_cons] at hx
    rcases hx with rfl | hx
    · decide
    · rw [List.mem_append, List.mem_singleton] at hx
      rcases hx with hx | rfl
      · exact dumpFields_ascii ms x hx
      · decide
theorem dumpItems_ascii (es : List JVal) : ∀ x ∈ dumpItems es, x.toNat ≤ 126 :=
  match es with
  | [] => by intro x hx; cases hx
  | [e] => dumpVal_ascii e
  | e :: e2 :: t => by
    intro x hx
    rw [dumpItems_multi, List.mem_append, List.mem_cons, List.mem_cons] at hx
    rcases hx with hx | rfl | rfl | hx
    · exact dumpVal_ascii e x hx
    · decide
    · decide
    · exact dumpItems_ascii (e2 :: t) x hx
theorem dumpFields_ascii (ms : List (String × JVal)) :
    ∀ x ∈ dumpFields ms, x.toNat ≤ 126 :=
  match ms with
  | [] => by intro x hx; cases hx
  | [(k, v)] => by
    intro x hx
    rw [dumpFields_single, List.mem_append, List.mem_cons, List.mem_cons] at hx
    rcases hx with hx | rfl | rfl | hx
    · exact dumpStr_ascii k x hx
    · decide
    · decide
    · exact dumpVal_ascii v x hx
  | (k, v) :: m :: t => by
    intro x hx
    rw [dumpFields_multi, List.mem_append, List.mem_append, List.mem_cons,
      List.mem_cons, List.mem_cons, List.mem_cons] at hx
    rcases hx with (hx | rfl | rfl | hx) | rfl | rfl | hx
    · exact dumpStr_ascii k x hx
    · decide
    · decide
    · exact dumpVal_ascii v x hx
    · decide
    · decide
    · exact dumpFields_ascii (m :: t) x hx
end

/-- Model of `str.encode("utf-8")`: standard UTF-8, one to four bytes per
scalar value. -/
def utf8Bytes : List Char → List Nat
  | [] => []
  | c :: cs =>
    (if c.toNat < 128 then [c.toNat]
     else if c.toNat < 2048 then [192 + c.toNat / 64, 128 + c.toNat % 64]
     else if c.toNat < 65536 then
       [224 + c.toNat / 4096, 128 + c.toNat / 64 % 64, 128 + c.toNat % 64]
     else
       [240 + c.toNat / 262144, 128 + c.toNat / 4096 % 64,
        128 + c.toNat / 64 % 64, 128 + c.toNat % 64]) ++ utf8Bytes cs

/-- Decode one UTF-8 scalar value: lead byte `b`, then continuation bytes
taken from `bs`.  Returns the scalar and the unconsumed bytes.  `none` for a
bad lead or continuation byte, an overlong form, a surrogate, or a value
beyond U+10FFFF — everything strict-mode `bytes.decode("utf-8")` rejects. -/
def utf8Decode1 (b : Nat) (bs : List Nat) : Option (Nat × List Nat) :=
  if b < 128 then some (b, bs)
  else if b < 194 then none
  else if b < 224 then
    match bs with
    | b2 :: bs2 =>
      if 128 ≤ b2 ∧ b2 < 192 then some ((b - 192) * 64 + (b2 - 128), bs2) else none
    | [] => none
  else if b < 240 then
    match bs with
    | b2 :: b3 :: bs2 =>
      if (128 ≤ b2 ∧ b2 < 192) ∧ (128 ≤ b3 ∧ b3 < 192) then
        if 2048 ≤ (b - 224) * 4096 + (b2 - 128) * 64 + (b3 - 128)
            ∧ ¬(55296 ≤ (b - 224) * 4096 + (b2 - 128) * 64 + (b3 - 128)
                ∧ (b - 224) * 4096 + (b2 - 128) * 64 + (b3 - 128) ≤ 57343) then
          some ((b - 224) * 4096 + (b2 - 128) * 64 + (b3 - 128), bs2)
        else none
      else none
    | _ => none
  else if b < 245 then
    match bs with
    | b2 :: b3 :: b4 :: bs2 =>
      if (128 ≤ b2 ∧ b2 < 192) ∧ (128 ≤ b3 ∧ b3 < 192) ∧ (128 ≤ b4 ∧ b4 < 192) then
        if 65536 ≤ (b - 240) * 262144 + (b2 - 128) * 4096 + (b3 - 128) * 64 + (b4 - 128)
            ∧ (b - 240) * 262144 + (b2 - 128) * 4096 + (b3 - 128) * 64 + (b4 - 128)
              < 1114112 then
          some ((b - 240) * 262144 + (b2 - 128) * 4096 + (b3 - 128) * 64 + (b4 - 128), bs2)
        else none
      else none
    | _ => none
  else none

set_option maxRecDepth 4096 in
theorem utf8Decode1_shrinks (b : Nat) (bs : List Nat) (p : Nat × List Nat)
    (h : utf8Decode1 b bs = some p) : p.2.length ≤ bs.length := by
  unfold utf8Decode1 at h
  repeat' split at h
  all_goals cases h
  all_goals simp
  all_goals omega

/-- Model of `bytes.decode("utf-8")` in strict mode: `none` models the raised
`UnicodeDecodeError`. -/
def utf8Str (bytes : List Nat) : Option (List Char) :=
  match bytes with
  | [] => some []
  | b :: bs =>
    match h : utf8Decode1 b bs with
    | some p => (utf8Str p.2).map (fun l => Char.ofNat p.1 :: l)
    | none => none
termination_by bytes.length
decreasing_by
  have := utf8Decode1_shrinks b bs p h
  simp only [List.length_cons]
  omega

/-- On ASCII text (all `json.dumps` output) UTF-8 decode inverts encode. -/
theorem utf8Str_utf8Bytes_ascii (l : List Char) (h : ∀ c ∈ l, c.toNat < 128) :
    utf8Str (utf8Bytes l) = some l := by
  induction l with
  | nil => simp [utf8Bytes, utf8Str]
  | cons c cs ih =>
    have hc : c.toNat < 128 := h c (List.mem_cons_self c cs)
    have harg : utf8Bytes (c :: cs) = c.toNat :: utf8Bytes cs := by
      rw [utf8Bytes, if_pos hc]
      rfl
    have h1 : utf8Decode1 c.toNat (utf8Bytes cs) = some (c.toNat, utf8Bytes cs) := by
      unfold utf8Decode1
      rw [if_pos hc]
    rw [harg, utf8Str.eq_def]
    simp only []
    split
    · rename_i p hp
      rw [h1] at hp
      cases hp
      rw [ih (fun x hx => h x (List.mem_cons_of_mem c hx))]
      simp [Char.ofNat_toNat]
    · rename_i hp
      rw [h1] at hp
      cases hp

theorem utf8Bytes_length_ascii (l : List Char) (h : ∀ c ∈ l, c.toNat < 128) :
    (utf8Bytes l).length = l.length := by
  induction l with
  | nil => rfl
  | cons c cs ih =>
    have hc : c.toNat < 128 := h c (List.mem_cons_self c cs)
    rw [utf8Bytes, if_pos hc]
    simp [ih (fun x hx => h x (List.mem_cons_of_mem c hx))]

/-! ## Message transport (`src/sandbox/proxy.py`)

`encode_message`, `decode_message`, `read_message` and `write_message` over
byte lists.  A stream is a `List Nat` of octets; `asyncio.StreamReader` is
modelled by explicit stream passing: a read returns the value read and the
remaining stream. -/

/-- The 1 MiB frame cap (`MAX_MESSAGE_SIZE` in `proxy.py`). -/
def MAX_MESSAGE_SIZE : Nat := 1024 * 1024

/-- Model of `length.to_bytes(4, "big")`: the four big-endian bytes of a
length below `2^32` (`int.to_bytes` raises `OverflowError` otherwise, which
`encode_message` models by returning `none`). -/
def lenBytes4 (n : Nat) : List Nat :=
  [n / 16777216 % 256, n / 65536 % 256, n / 256 % 256, n % 256]

/-- Model of `int.from_bytes(bs, "big")`. -/
def beVal (bs : List Nat) : Nat :=
  bs.foldl (fun acc b => acc * 256 + b) 0

theorem beVal_lenBytes4 (n : Nat) (h : n < 4294967296) :
    beVal (lenBytes4 n) = n := by
  simp only [lenBytes4, beVal, List.foldl_cons, List.foldl_nil]
  omega

/-- Model of `encode_message` (`proxy.py`): JSON-serialize, UTF-8 encode,
prefix with the 4-byte big-endian length.  `none` models the `OverflowError`
from `int.to_bytes` on a body of 4 GiB or more (unreachable under the cap). -/
def encode_message (data : JVal) : Option (List Nat) :=
  let json_data := utf8Bytes (dumpVal data)
  if json_data.length < 4294967296 then
    some (lenBytes4 json_data.length ++ json_data)
  else none

/-- Model of `decode_message` (`proxy.py`): UTF-8 decode then `json.loads`;
`none` models the exception either step raises. -/
def decode_message (data : List Nat) : Option JVal :=
  (utf8Str data).bind (fun chars => loads chars)

/-- The distinct exceptional exits of `read_message`'s `try` body:
`asyncio.IncompleteReadError` from `readexactly`, the explicitly raised
`SandboxCommunicationError` for an oversized frame, and the decode errors
from `decode_message`. -/
inductive ReadFailure where
  | incompleteRead : ReadFailure
  | messageTooLarge : Nat → ReadFailure
  | decodeError : ReadFailure

/-- The `try` body of `read_message` (`proxy.py`): read a 4-byte length
prefix, raise `SandboxCommunicationError` if it exceeds `MAX_MESSAGE_SIZE`
before reading any body byte, then read exactly that many body bytes and
decode them.  Returns the decoded message and the unread remainder of the
stream. -/
def read_message_try (stream : List Nat) : Except ReadFailure (JVal × List Nat) :=
  if stream.length < 4 then .error .incompleteRead
  else
    let length := beVal (stream.take 4)
    if length > MAX_MESSAGE_SIZE then .error (.messageTooLarge length)
    else
      let rest := stream.drop 4
      if rest.length < length then .error .incompleteRead
      else
        match decode_message (rest.take length) with
        | some msg => .ok (msg, rest.drop length)
        | none => .error .decodeError

/-- Model of `read_message` (`proxy.py`): the `try` body wrapped in the two
`except` clauses, both of which return `None` — `asyncio.IncompleteReadError`
explicitly, and every other exception (including the oversize
`SandboxCommunicationError` raised inside the `try`) via the logging
catch-all. -/
def read_message (stream : List Nat) : Option (JVal × List Nat) :=
  match read_message_try stream with
  | .ok r => some r
  | .error _ => none

/-- Model of `write_message` (`proxy.py`): append the encoded frame to the
stream buffer (`writer.write` + `drain`). -/
def write_message (buffer : List Nat) (data : JVal) : Option (List Nat) :=
  (encode_message data).map (fun frame => buffer ++ frame)

theorem lenBytes4_length (n : Nat) : (lenBytes4 n).length = 4 := rfl

/-- Decoding inverts encoding on the body of any frame. -/
theorem decode_message_body (m : JVal) :
    decode_message (utf8Bytes (dumpVal m)) = some m := by
  unfold decode_message
  rw [utf8Str_utf8Bytes_ascii (dumpVal m)
    (fun c hc => lt_of_le_of_lt (dumpVal_ascii m c hc) (by omega))]
  simp [loads_dumpVal]

/-- Frame-level round trip: a frame under the cap written by
`encode_message` is read back exactly by `read_message`, leaving the rest
of the stream untouched. -/
theorem read_message_encode_message (m : JVal) (rest : List Nat)
    (hsize : (utf8Bytes (dumpVal m)).length ≤ MAX_MESSAGE_SIZE) :
    ∃ frame, encode_message m = some frame
      ∧ decode_message (frame.drop 4) = some m
      ∧ read_message (frame ++ rest) = some (m, rest) := by
  have hlt : (utf8Bytes (dumpVal m)).length < 4294967296 := by
    have : MAX_MESSAGE_SIZE < 4294967296 := by decide
    omega
  refine ⟨lenBytes4 (utf8Bytes (dumpVal m)).length ++ utf8Bytes (dumpVal m), ?_, ?_, ?_⟩
  · unfold encode_message
    rw [if_pos hlt]
  · rw [← lenBytes4_length (utf8Bytes (dumpVal m)).length, List.drop_left]
    exact decode_message_body m
  · unfold read_message read_message_try
    rw [List.append_assoc]
    have hlen : (lenBytes4 (utf8Bytes (dumpVal m)).length
        ++ (utf8Bytes (dumpVal m) ++ rest)).length
        = 4 + ((utf8Bytes (dumpVal m)).length + rest.length) := by
      simp [lenBytes4]
      omega
    rw [if_neg (by rw [hlen]; omega)]
    have htake : (lenBytes4 (utf8Bytes (dumpVal m)).length
        ++ (utf8Bytes (dumpVal m) ++ rest)).take 4
        = lenBytes4 (utf8Bytes (dumpVal m)).length := by
      rw [← lenBytes4_length (utf8Bytes (dumpVal m)).length, List.take_left]
    have hdrop : (lenBytes4 (utf8Bytes (dumpVal m)).length
        ++ (utf8Bytes (dumpVal m) ++ rest)).drop 4
        = utf8Bytes (dumpVal m) ++ rest := by
      rw [← lenBytes4_length (utf8Bytes (dumpVal m)).length, List.drop_left]
    rw [htake, hdrop, beVal_lenBytes4 _ hlt]
    rw [if_neg (by unfold MAX_MESSAGE_SIZE at *; omega)]
    rw [if_neg (by simp)]
    rw [List.take_left, List.drop_left, decode_message_body m]

/-! ## RPC dispatch (`APIProxy` in `src/sandbox/proxy.py`) and the
in-container stub (`docker/api_stub.py`)

A handler models one closure of the proxy's `_methods` dispatch table: it
receives the call arguments and returns either the serialized result or the
`str()` of the exception that the call raised (the proxy folds every handler
exception into an error string).  The live game API behind the handlers is
outside the isolation subsystem, so the table is a parameter. -/

/-- How `_handle_request` passes `params` to a handler: `handler(**params)`
for a dict, `handler(*params)` for a list, `handler()` otherwise. -/
inductive CallArgs where
  | kw : List (String × JVal) → CallArgs
  | pos : List JVal → CallArgs
  | noargs : CallArgs

/-- Model of `dict.get` on a decoded JSON object: the value under the key
(`none` when absent, or when the value is not a dict); duplicate keys keep
the last occurrence, as `json.loads` builds its dict. -/
def jget (m : JVal) (key : String) : Option JVal :=
  match m with
  | .jobj kvs => kvs.foldl (fun acc kv => if kv.1 = key then some kv.2 else acc) none
  | _ => none

mutual
/-- Model of Python `repr()` on JSON-shaped values (scalars exact; string
escaping inside quotes is not modelled — no theorem depends on it). -/
def pyRepr : JVal → String
  | .jnull => "None"
  | .jbool true => "True"
  | .jbool false => "False"
  | .jint n => ⟨intChars n⟩
  | .jstr s => "'" ++ s ++ "'"
  | .jarr es => "[" ++ pyReprItems es ++ "]"
  | .jobj ms => "\x7b" ++ pyReprFields ms ++ "\x7d"
/-- Comma-joined `repr`s of list items. -/
def pyReprItems : List JVal → String
  | [] => ""
  | [e] => pyRepr e
  | e :: es => pyRepr e ++ ", " ++ pyReprItems es
/-- Comma-joined `'key': repr` pairs of dict members. -/
def pyReprFields : List (String × JVal) → String
  | [] => ""
  | [(k, v)] => "'" ++ k ++ "': " ++ pyRepr v
  | (k, v) :: ms => "'" ++ k ++ "': " ++ pyRepr v ++ ", " ++ pyReprFields ms
end

/-- Model of Python `str()` as interpolated by f-strings: a string is
itself, anything else falls back to `repr`. -/
def pyStr : JVal → String
  | .jstr s => s
  | v => pyRepr v

/-- Model of Python truthiness for JSON-shaped values. -/
def pyTruthy : JVal → Bool
  | .jnull => false
  | .jbool b => b
  | .jint n => n != 0
  | .jstr s => s != ""
  | .jarr es => !es.isEmpty
  | .jobj ms => !ms.isEmpty

/-- Model of `APIProxy._handle_request`: answer one decoded request dict.
Follows the source line by line: `message.get` with defaults, the
`method not in self._methods` check (a non-string method is never a key of
the string-keyed table), the three `params` call shapes, and the
`except Exception` clause that turns a handler exception into an error
response carrying `str(e)`. -/
def handle_request (table : String → Option (CallArgs → Except String JVal))
    (message : JVal) : JVal :=
  let request_id := (jget message "id").getD (.jint 0)
  let method := (jget message "method").getD (.jstr "")
  let params := (jget message "params").getD (.jobj [])
  let found :=
    match method with
    | .jstr name => table name
    | _ => none
  match found with
  | none =>
    .jobj [("id", request_id), ("error", .jstr ("Unknown method: " ++ pyStr method))]
  | some handler =>
    let call :=
      match params with
      | .jobj kvs => handler (.kw kvs)
      | .jarr xs => handler (.pos xs)
      | _ => handler .noargs
    match call with
    | .ok result => .jobj [("id", request_id), ("result", result)]
    | .error e => .jobj [("id", request_id), ("error", .jstr e)]

theorem read_message_try_shrinks (s : List Nat) (m : JVal) (rest : List Nat)
    (h : read_message_try s = .ok (m, rest)) : rest.length < s.length := by
  unfold read_message_try at h
  dsimp only [] at h
  repeat' split at h
  all_goals cases h
  all_goals simp only [List.length_drop]
  all_goals omega

theorem read_message_shrinks (s : List Nat) (m : JVal) (rest : List Nat)
    (h : read_message s = some (m, rest)) : rest.length < s.length := by
  unfold read_message at h
  split at h
  · rename_i r heq
    cases h
    exact read_message_try_shrinks s m rest heq
  · cases h

/-- Model of `APIProxy._handle_client`'s serving loop while `_running`:
read one frame at a time until `read_message` returns `None` (clean
end-of-stream or any transport failure), answering every decoded message
with `_handle_request`.  Returns the responses written back, in order.  The
loop never terminates because a request failed: a handler error only
produces an error response. -/
def handle_client (table : String → Option (CallArgs → Except String JVal))
    (stream : List Nat) : List JVal :=
  match hr : read_message stream with
  | none => []
  | some (msg, rest) => handle_request table msg :: handle_client table rest
termination_by stream.length
decreasing_by
  exact read_message_shrinks stream msg rest hr

/-- Model of the request construction in `APIStub._send`
(`docker/api_stub.py`): ids count up from 1 within a connection. -/
def stub_request (request_id : Nat) (method : String)
    (params : List (String × JVal)) : JVal :=
  .jobj [("id", .jint request_id), ("method", .jstr method), ("params", .jobj params)]

/-- Model of the response handling in `APIStub._send`: raise
`RuntimeError(f"API error: {response['error']}")` when the response carries
a truthy `error` value, else return `response.get("result")` (`None`, i.e.
JSON null, when the key is absent). -/
def stub_read_result (response : JVal) : Except String JVal :=
  match jget response "error" with
  | some err =>
    if pyTruthy err then .error ("API error: " ++ pyStr err)
    else .ok ((jget response "result").getD .jnull)
  | none => .ok ((jget response "result").getD .jnull)

/-! ## Execution engine (`src/sandbox/manager.py`)

`SkillSandbox.execute` and `SkillSandbox.execute_code` are embedded as
functions of the decisions the environment makes during one invocation:
whether docker-client initialization succeeds, the validation verdict on the
submitted code, what the container (or the awaited ad-hoc coroutine) does,
and whether the cooperative deadline fires.  Each such decision is a
parameter; the engine's own control flow — the early validation return, the
`except` clauses, the `finally` blocks — is the code being modelled.
Wall-clock readings are modelled in whole seconds. -/

/-- The `ExecutionResult` dataclass of `manager.py`. -/
structure ExecutionResult where
  success : Bool
  result : Option JVal := none
  error : Option String := none
  stdout : String := ""
  stderr : String := ""
  execution_time : Nat := 0
  actions_taken : Int := 0
  turns_elapsed : Int := 0

/-- Modelled from the spec: the `ValidationResult` consumed by the engine
(valid flag, ordered error list, resolved entry-point name).  The validation
module itself (`src/sandbox/validation.py`, imported by `manager.py`) is not
in the source tree, so engine models below take the verdict of
`validate_skill` / `validate_adhoc_code` as a parameter of this shape. -/
structure ValidationResult where
  valid : Bool
  errors : List String
  function_name : Option String := none

/-- Observable resource effects of an `execute` call, in program order. -/
inductive Effect where
  | initDockerClient : Effect
  | createTempDir : Effect
  | writeSkillFile : Effect
  | writeParamsFile : Effect
  | startProxyServer : Effect
  | createContainer : Effect
  | waitContainer : Effect
  | readResultFile : Effect
  | cancelProxyServer : Effect
  | removeTempDir : Effect
deriving DecidableEq

/-- The fields of a `result.json` the container may have produced, already
parsed; mirrors the `result_data.get(...)` defaults in
`_execute_in_container`. -/
structure ResultFile where
  success : Bool := false
  result : Option JVal := none
  error : Option String := none
  actions_taken : Int := 0
  turns_elapsed : Int := 0

/-- What one docker container run does, as the engine observes it: the exit
code, captured logs and optional result file on completion, or the `str()`
of the exception the docker SDK raised inside the `try`. -/
inductive ContainerRun where
  | completed : Int → String → String → Option ResultFile → ContainerRun
  | raised : String → ContainerRun

/-- Model of `SkillSandbox._execute_in_container`: scratch directory, skill
and params files, proxy server on a fresh socket, then the container; on
every path the `finally` cancels the proxy task and the context manager
removes the scratch directory.  Returns the outcome — `.error e` models an
exception propagating out — paired with the effect trace. -/
def execute_in_container (run : ContainerRun) : Except String ExecutionResult × List Effect :=
  let pre := [Effect.createTempDir, Effect.writeSkillFile, Effect.writeParamsFile,
    Effect.startProxyServer]
  let post := [Effect.cancelProxyServer, Effect.removeTempDir]
  match run with
  | .raised e => (.error e, pre ++ [Effect.createContainer] ++ post)
  | .completed exitCode stdout stderr resultFile =>
    match resultFile with
    | some rf =>
      (.ok { success := rf.success, result := rf.result, error := rf.error,
             stdout := stdout, stderr := stderr,
             actions_taken := rf.actions_taken, turns_elapsed := rf.turns_elapsed },
       pre ++ [Effect.createContainer, Effect.waitContainer, Effect.readResultFile] ++ post)
    | none =>
      (.ok { success := false,
             error := some ("Container exited with code " ++ (⟨intChars exitCode⟩ : String)),
             stdout := stdout, stderr := stderr },
       pre ++ [Effect.createContainer, Effect.waitContainer] ++ post)

/-- Whether the awaited inner coroutine finishes before the
`asyncio.wait_for` deadline — the cooperative timeout. -/
inductive AwaitOutcome where
  | inTime : AwaitOutcome
  | timedOut : AwaitOutcome

/-- How a call of `execute` / `execute_code` ends at its caller: a returned
`ExecutionResult`, a raised `SkillTimeoutError` (with its constructor
arguments), or a raised infrastructure error (`SandboxError` /
`SandboxStartupError` from initialization). -/
inductive ExecuteOutcome where
  | result : ExecutionResult → ExecuteOutcome
  | raisedSkillTimeout : String → String → Nat → ExecuteOutcome
  | raisedInfra : String → ExecuteOutcome

/-- True when the call returned an `ExecutionResult` rather than raising. -/
def ExecuteOutcome.isResult : ExecuteOutcome → Bool
  | .result _ => true
  | _ => false

/-- Model of `SkillSandbox.execute`: initialize the docker client if
needed (`initError` is the failure it would raise), validate — returning a
failed `ExecutionResult` before any resource is touched when validation
fails — then await `_execute_in_container` under `asyncio.wait_for`.
`asyncio.TimeoutError` is re-raised as `SkillTimeoutError`; every other
exception from the container path is folded into a failed
`ExecutionResult` whose error is `str(e)`.  Returns the outcome paired
with the effect trace (on the timeout path, the effects up to cancellation
plus the teardown that still runs; modelled as the full inner trace). -/
def SkillSandbox.execute (initialized : Bool) (initError : Option String)
    (skill_name : String) (validation : ValidationResult) (timeout : Nat)
    (run : ContainerRun) (awaited : AwaitOutcome) (elapsed : Nat) :
    ExecuteOutcome × List Effect :=
  let initTrace : List Effect := if initialized then [] else [Effect.initDockerClient]
  match (if initialized then none else initError) with
  | some e => (.raisedInfra e, initTrace)
  | none =>
    if validation.valid = false then
      (.result { success := false,
                 error := some ("Validation failed: "
                   ++ String.intercalate "; " validation.errors) },
       initTrace)
    else
      match awaited with
      | .timedOut =>
        (.raisedSkillTimeout
          ("Skill '" ++ skill_name ++ "' exceeded timeout of "
            ++ (⟨natChars timeout⟩ : String) ++ "s") skill_name timeout,
         initTrace ++ (execute_in_container run).2)
      | .inTime =>
        match (execute_in_container run).1 with
        | .ok r =>
          (.result { r with execution_time := elapsed },
           initTrace ++ (execute_in_container run).2)
        | .error e =>
          (.result { success := false, error := some e, execution_time := elapsed },
           initTrace ++ (execute_in_container run).2)

/-- The process-wide SIGALRM handler slot. -/
inductive SigHandler where
  | original : SigHandler
  | adhocTimeout : SigHandler
deriving DecidableEq

/-- Process-wide SIGALRM state: the installed handler and the pending alarm
in seconds (`none` = disarmed). -/
structure SignalState where
  handler : SigHandler
  alarm : Option Nat
deriving DecidableEq

/-- How the awaited ad-hoc code block finishes: normal completion with its
assembled result dict and captured stdout, the cooperative
`asyncio.TimeoutError`, the builtin `TimeoutError` raised by the installed
SIGALRM handler interrupting a synchronous loop, or any other exception. -/
inductive AdhocRun where
  | completed : JVal → String → AdhocRun
  | asyncioTimeout : AdhocRun
  | signalTimeout : AdhocRun
  | raised : String → AdhocRun

/-- Model of `SkillSandbox.execute_code`: on a platform with SIGALRM it
first installs its own alarm handler and arms the alarm for
`int(timeout) + 1` seconds; it then validates (returning a failed
`ExecutionResult` on the spot when validation fails — this return sits
before the `try`, so the `finally` that disarms the alarm and restores the
old handler does not run on that path); otherwise it awaits the wrapped
code under `asyncio.wait_for`.  The `except asyncio.TimeoutError` clause
re-raises as `SkillTimeoutError`; the distinct `except TimeoutError`
clause — the signal-based timeout — returns a failed `ExecutionResult`;
other exceptions also return a failed result.  The returned `SignalState`
is the SIGALRM state at the moment the call ends. -/
def SkillSandbox.execute_code (hasSigalrm : Bool) (validation : ValidationResult)
    (timeout : Nat) (run : AdhocRun) (elapsed : Nat) :
    ExecuteOutcome × SignalState :=
  let armed : SignalState :=
    if hasSigalrm then ⟨.adhocTimeout, some (timeout + 1)⟩ else ⟨.original, none⟩
  if validation.valid = false then
    (.result { success := false,
               error := some ("Validation failed: "
                 ++ String.intercalate "; " validation.errors) },
     armed)
  else
    let restored : SignalState := if hasSigalrm then ⟨.original, none⟩ else armed
    match run with
    | .completed result_dict stdout =>
      (.result { success := true, result := some result_dict, stdout := stdout,
                 execution_time := elapsed }, restored)
    | .asyncioTimeout =>
      (.raisedSkillTimeout
        ("Code execution exceeded timeout of " ++ (⟨natChars timeout⟩ : String) ++ "s")
        "<adhoc>" timeout, restored)
    | .signalTimeout =>
      (.result { success := false,
                 error := some ("Code execution timed out after "
                   ++ (⟨natChars timeout⟩ : String) ++ " seconds (possible infinite loop)"),
                 execution_time := elapsed }, restored)
    | .raised e =>
      (.result { success := false, error := some e, execution_time := elapsed }, restored)

/-! ## The claims -/

theorem handle_client_step (table : String → Option (CallArgs → Except String JVal))
    (s : List Nat) (m : JVal) (rest : List Nat) (h : read_message s = some (m, rest)) :
    handle_client table s = handle_request table m :: handle_client table rest := by
  rw [handle_client.eq_def]
  split
  · rename_i hr
    rw [h] at hr
    cases hr
  · rename_i m2 rest2 hr
    rw [h] at hr
    cases hr
    rfl

theorem handle_client_stop (table : String → Option (CallArgs → Except String JVal))
    (s : List Nat) (h : read_message s = none) : handle_client table s = [] := by
  rw [handle_client.eq_def]
  split
  · rfl
  · rename_i m2 rest2 hr
    rw [h] at hr
    cases hr

theorem handle_request_stub (table : String → Option (CallArgs → Except String JVal))
    (i : Nat) (m : String) (p : List (String × JVal)) :
    handle_request table (stub_request i m p)
      = (match table m with
         | none => .jobj [("id", .jint i), ("error", .jstr ("Unknown method: " ++ m))]
         | some handler =>
           match handler (.kw p) with
           | .ok r => .jobj [("id", .jint i), ("result", r)]
           | .error e => .jobj [("id", .jint i), ("error", .jstr e)]) := rfl

/-- C4: for every JSON-serializable payload whose encoded body is under the
1 MiB cap, the framing round-trips exactly: `decode_message` on the body of
`encode_message m` yields `m`, and `read_message` on a stream holding
exactly the frame written by `write_message` returns `m` with nothing left
over. -/
theorem claim_C4_framing_round_trip (m : JVal)
    (hsize : (utf8Bytes (dumpVal m)).length ≤ MAX_MESSAGE_SIZE) :
    ∃ frame, encode_message m = some frame
      ∧ decode_message (frame.drop 4) = some m
      ∧ write_message [] m = some frame
      ∧ read_message frame = some (m, []) := by
  obtain ⟨frame, henc, hdec, hread⟩ := read_message_encode_message m [] hsize
  refine ⟨frame, henc, hdec, ?_, ?_⟩
  · unfold write_message
    rw [henc]
    rfl
  · rwa [List.append_nil] at hread

/-- C4 witness: a concrete RPC request frame under the cap round-trips. -/
theorem claim_C4_witness :
    (utf8Bytes (dumpVal (JVal.jobj [("id", .jint 1), ("method", .jstr "get_stats"),
        ("params", .jobj [])]))).length ≤ MAX_MESSAGE_SIZE
    ∧ ∃ frame,
        encode_message (JVal.jobj [("id", .jint 1), ("method", .jstr "get_stats"),
          ("params", .jobj [])]) = some frame
        ∧ decode_message (frame.drop 4)
            = some (JVal.jobj [("id", .jint 1), ("method", .jstr "get_stats"),
                ("params", .jobj [])])
        ∧ write_message [] (JVal.jobj [("id", .jint 1), ("method", .jstr "get_stats"),
            ("params", .jobj [])]) = some frame
        ∧ read_message frame
            = some (JVal.jobj [("id", .jint 1), ("method", .jstr "get_stats"),
                ("params", .jobj [])], []) :=
  ⟨by simp +decide [dumpVal, dumpItems, dumpFields, dumpStr, escBody, escChar,
      intChars, natChars, utf8Bytes, MAX_MESSAGE_SIZE],
   claim_C4_framing_round_trip _
    (by simp +decide [dumpVal, dumpItems, dumpFields, dumpStr, escBody, escChar,
      intChars, natChars, utf8Bytes, MAX_MESSAGE_SIZE])⟩

/-- C2 counterexample: on a stream whose length prefix declares
`MAX_MESSAGE_SIZE + 1` bytes, `read_message` returns `None` — exactly the
value a clean end-of-stream produces — instead of surfacing a
transport-level protocol error to its caller: the claimed distinct error
is not observable at the call boundary. -/
theorem claim_C2_counterexample :
    read_message [0, 16, 0, 1] = none ∧ read_message [] = none :=
  ⟨rfl, rfl⟩

/-- C2 amended: for every stream whose 4-byte big-endian prefix decodes
above the cap, the `try` body of `read_message` raises
`SandboxCommunicationError` (modelled as `ReadFailure.messageTooLarge`)
before reading any body byte — the quantified `rest` shows the result does
not depend on the body being present at all — but the function's catch-all
`except` clause converts it to the return value `None`, indistinguishable
from a normal end-of-stream. -/
theorem claim_C2_oversized_frame (b0 b1 b2 b3 : Nat) (rest : List Nat)
    (h : beVal [b0, b1, b2, b3] > MAX_MESSAGE_SIZE) :
    read_message_try ([b0, b1, b2, b3] ++ rest)
      = .error (.messageTooLarge (beVal [b0, b1, b2, b3]))
    ∧ read_message ([b0, b1, b2, b3] ++ rest) = none := by
  have h4 : ¬([b0, b1, b2, b3] ++ rest).length < 4 := by simp
  have htake : ([b0, b1, b2, b3] ++ rest).take 4 = [b0, b1, b2, b3] := rfl
  have htry : read_message_try ([b0, b1, b2, b3] ++ rest)
      = .error (.messageTooLarge (beVal [b0, b1, b2, b3])) := by
    unfold read_message_try
    rw [if_neg h4]
    dsimp only []
    rw [htake, if_pos h]
  refine ⟨htry, ?_⟩
  unfold read_message
  rw [htry]

/-- C2 witness: the concrete prefix declaring `0x100001 = 1 MiB + 1` bytes
takes the oversize branch with no body present. -/
theorem claim_C2_witness :
    beVal [0, 16, 0, 1] > MAX_MESSAGE_SIZE
    ∧ read_message_try ([0, 16, 0, 1] ++ [])
        = .error (.messageTooLarge (beVal [0, 16, 0, 1]))
    ∧ read_message ([0, 16, 0, 1] ++ []) = none :=
  ⟨by decide, (claim_C2_oversized_frame 0 16 0 1 [] (by decide)).1,
   (claim_C2_oversized_frame 0 16 0 1 [] (by decide)).2⟩

/-- C10: `read_message` is total at its call boundary: it returns a decoded
message or `None` and never propagates an exception (its result type in
this embedding is `Option`, the `try`-level failures being consumed by its
two `except` clauses); end-of-stream inside the length prefix, an over-cap
declared length, end-of-stream inside the body, and a body that fails to
decode all yield `None`, indistinguishable from the clean end-of-stream
`read_message [] = None`. -/
theorem claim_C10_read_message_total (s : List Nat) :
    read_message [] = none
    ∧ (s.length < 4 → read_message s = none)
    ∧ (beVal (s.take 4) > MAX_MESSAGE_SIZE → read_message s = none)
    ∧ ((s.drop 4).length < beVal (s.take 4) → read_message s = none)
    ∧ (decode_message ((s.drop 4).take (beVal (s.take 4))) = none →
        read_message s = none) := by
  have hnone : ∀ f, read_message_try s = .error f → read_message s = none := by
    intro f hf
    unfold read_message
    rw [hf]
  refine ⟨rfl, ?_, ?_, ?_, ?_⟩
  · intro h
    exact hnone _ (by unfold read_message_try; rw [if_pos h])
  · intro h
    by_cases h4 : s.length < 4
    · exact hnone _ (by unfold read_message_try; rw [if_pos h4])
    · exact hnone _ (by unfold read_message_try; rw [if_neg h4]; dsimp only []; rw [if_pos h])
  · intro h
    by_cases h4 : s.length < 4
    · exact hnone _ (by unfold read_message_try; rw [if_pos h4])
    · by_cases hbig : beVal (s.take 4) > MAX_MESSAGE_SIZE
      · exact hnone _ (by unfold read_message_try; rw [if_neg h4]; dsimp only []; rw [if_pos hbig])
      · exact hnone _ (by
          unfold read_message_try
          rw [if_neg h4]
          dsimp only []
          rw [if_neg hbig, if_pos h])
  · intro h
    by_cases h4 : s.length < 4
    · exact hnone _ (by unfold read_message_try; rw [if_pos h4])
    · by_cases hbig : beVal (s.take 4) > MAX_MESSAGE_SIZE
      · exact hnone _ (by unfold read_message_try; rw [if_neg h4]; dsimp only []; rw [if_pos hbig])
      · by_cases hshort : (s.drop 4).length < beVal (s.take 4)
        · exact hnone _ (by
            unfold read_message_try
            rw [if_neg h4]
            dsimp only []
            rw [if_neg hbig, if_pos hshort])
        · exact hnone _ (by
            unfold read_message_try
            rw [if_neg h4]
            dsimp only []
            rw [if_neg hbig, if_neg hshort, h])

/-- C10 witness: a frame declaring two body bytes but carrying one (an
end-of-stream mid-body) reads as `None`. -/
theorem claim_C10_witness : read_message [0, 0, 0, 2, 123] = none :=
  (claim_C10_read_message_total [0, 0, 0, 2, 123]).2.2.2.1 (by decide)

/-- C6: a request whose method name is not a key of the dispatch table is
answered with exactly `{"id": <the request id>, "error": "Unknown method:
<method>"}` — an RPC-level error response produced by `_handle_request`
(the serving loop keeps running: `handle_client_step` appends this response
and continues on the rest of the stream). -/
theorem claim_C6_unknown_method
    (table : String → Option (CallArgs → Except String JVal))
    (message : JVal) (name : String) (i : JVal)
    (hid : jget message "id" = some i)
    (hm : jget message "method" = some (.jstr name))
    (htbl : table name = none) :
    handle_request table message
      = .jobj [("id", i), ("error", .jstr ("Unknown method: " ++ name))] := by
  unfold handle_request
  rw [hid, hm]
  simp only [Option.getD_some]
  rw [htbl]
  rfl

/-- C6 witness: `nonexistent_op` against an empty table. -/
theorem claim_C6_witness :
    jget (stub_request 7 "nonexistent_op" []) "id" = some (.jint 7)
    ∧ jget (stub_request 7 "nonexistent_op" []) "method" = some (.jstr "nonexistent_op")
    ∧ handle_request (fun _ => none) (stub_request 7 "nonexistent_op" [])
        = .jobj [("id", .jint 7), ("error", .jstr ("Unknown method: " ++ "nonexistent_op"))] :=
  ⟨rfl, rfl, claim_C6_unknown_method (fun _ => none) _ "nonexistent_op" (.jint 7) rfl rfl rfl⟩

/-- C7: every `_handle_request` response carries the id of the request it
answers, together with exactly one of a result value or an error string —
never both, never neither. -/
theorem claim_C7_response_shape
    (table : String → Option (CallArgs → Except String JVal))
    (message : JVal) (i : JVal) (hid : jget message "id" = some i) :
    jget (handle_request table message) "id" = some i
    ∧ ((∃ r, jget (handle_request table message) "result" = some r
          ∧ jget (handle_request table message) "error" = none)
      ∨ (∃ e, jget (handle_request table message) "error" = some (.jstr e)
          ∧ jget (handle_request table message) "result" = none)) := by
  unfold handle_request
  rw [hid]
  dsimp only []
  split
  · exact ⟨rfl, Or.inr ⟨_, rfl, rfl⟩⟩
  · split
    · exact ⟨rfl, Or.inl ⟨_, rfl, rfl⟩⟩
    · exact ⟨rfl, Or.inr ⟨_, rfl, rfl⟩⟩

/-- C7 witness: a concrete request against a one-method table. -/
theorem claim_C7_witness :
    jget (stub_request 3 "wait" []) "id" = some (.jint 3)
    ∧ jget (handle_request
        (fun n => if n = "wait" then some (fun _ => .ok .jnull) else none)
        (stub_request 3 "wait" [])) "id" = some (.jint 3) :=
  ⟨rfl,
   (claim_C7_response_shape
     (fun n => if n = "wait" then some (fun _ => .ok .jnull) else none)
     (stub_request 3 "wait" []) (.jint 3) rfl).1⟩

/-- C5 counterexample: a handler raising an exception whose `str()` is
empty.  The proxy answers `{"id": 1, "error": ""}`, and the stub's check
`if "error" in response and response["error"]:` sees a falsy value, so the
stub returns `None` instead of raising — the handler's failure never
surfaces to the calling code, refuting the claim for this request. -/
theorem claim_C5_counterexample :
    stub_read_result
      (handle_request
        (fun name => if name = "move" then some (fun _ => .error "") else none)
        (stub_request 1 "move" [("direction", .jstr "north")]))
      = .ok .jnull := rfl

/-- C5 amended: when a dispatch handler raises exception text `e`, the
proxy answers an error response carrying `e` under the request's id, and
the serving loop continues: a second request on the same connection is
served normally.  The in-sandbox stub raises
`RuntimeError("API error: " ++ e)` for the first response **provided `e`
is non-empty** (an exception with an empty `str()` is silently swallowed —
see the counterexample), and the second response returns its result
normally, so the connection stays usable. -/
theorem claim_C5_handler_error
    (table : String → Option (CallArgs → Except String JVal))
    (mB mG : String) (hB hG : CallArgs → Except String JVal)
    (pB pG : List (String × JVal)) (e : String) (r : JVal) (i1 i2 : Nat)
    (htB : table mB = some hB) (hcB : hB (.kw pB) = .error e) (hne : e ≠ "")
    (htG : table mG = some hG) (hcG : hG (.kw pG) = .ok r)
    (hs1 : (utf8Bytes (dumpVal (stub_request i1 mB pB))).length ≤ MAX_MESSAGE_SIZE)
    (hs2 : (utf8Bytes (dumpVal (stub_request i2 mG pG))).length ≤ MAX_MESSAGE_SIZE) :
    ∃ f1 f2, encode_message (stub_request i1 mB pB) = some f1
      ∧ encode_message (stub_request i2 mG pG) = some f2
      ∧ handle_client table (f1 ++ f2)
          = [.jobj [("id", .jint i1), ("error", .jstr e)],
             .jobj [("id", .jint i2), ("result", r)]]
      ∧ stub_read_result (.jobj [("id", .jint i1), ("error", .jstr e)])
          = .error ("API error: " ++ e)
      ∧ stub_read_result (.jobj [("id", .jint i2), ("result", r)]) = .ok r := by
  obtain ⟨f2, henc2, -, hread2⟩ := read_message_encode_message (stub_request i2 mG pG) [] hs2
  obtain ⟨f1, henc1, -, hread1⟩ := read_message_encode_message (stub_request i1 mB pB) f2 hs1
  refine ⟨f1, f2, henc1, henc2, ?_, ?_, ?_⟩
  · rw [List.append_nil] at hread2
    rw [handle_client_step table _ _ _ hread1]
    rw [handle_client_step table _ _ _ hread2]
    rw [handle_client_stop table [] rfl]
    rw [handle_request_stub table i1 mB pB, handle_request_stub table i2 mG pG]
    rw [htB, htG]
    dsimp only []
    rw [hcB, hcG]
  · have hj : stub_read_result (.jobj [("id", .jint i1), ("error", .jstr e)])
        = if pyTruthy (.jstr e) then Except.error ("API error: " ++ pyStr (.jstr e))
          else Except.ok ((jget (.jobj [("id", .jint i1), ("error", .jstr e)])
            "result").getD .jnull) := rfl
    rw [hj, if_pos (show pyTruthy (.jstr e) = true by simp [pyTruthy, hne])]
    rfl
  · rfl

/-- A two-method demonstration table: `move` raises, `wait` succeeds. -/
def demoTable : String → Option (CallArgs → Except String JVal) :=
  fun name =>
    if name = "move" then some (fun _ => .error "Invalid direction")
    else if name = "wait" then some (fun _ => .ok (.jobj [("success", .jbool true)]))
    else none

/-- C5 witness: a failing `move` then a succeeding `wait` on one
connection, with concrete sizes under the cap. -/
theorem claim_C5_witness :
    demoTable "move" = some (fun _ => .error "Invalid direction")
    ∧ ∃ f1 f2,
        encode_message (stub_request 1 "move" [("direction", .jstr "north")]) = some f1
        ∧ encode_message (stub_request 2 "wait" []) = some f2
        ∧ handle_client demoTable (f1 ++ f2)
            = [.jobj [("id", .jint 1), ("error", .jstr "Invalid direction")],
               .jobj [("id", .jint 2), ("result", JVal.jobj [("success", .jbool true)])]]
        ∧ stub_read_result (.jobj [("id", .jint 1), ("error", .jstr "Invalid direction")])
            = .error ("API error: " ++ "Invalid direction")
        ∧ stub_read_result
            (.jobj [("id", .jint 2), ("result", JVal.jobj [("success", .jbool true)])])
            = .ok (JVal.jobj [("success", .jbool true)]) :=
  ⟨rfl,
   claim_C5_handler_error demoTable "move" "wait" _ _ [("direction", .jstr "north")] []
    "Invalid direction" (JVal.jobj [("success", .jbool true)]) 1 2
    rfl rfl (by decide) rfl rfl
    (by simp +decide [stub_request, dumpVal, dumpItems, dumpFields, dumpStr, escBody,
      escChar, intChars, natChars, utf8Bytes, MAX_MESSAGE_SIZE])
    (by simp +decide [stub_request, dumpVal, dumpItems, dumpFields, dumpStr, escBody,
      escChar, intChars, natChars, utf8Bytes, MAX_MESSAGE_SIZE])⟩

/-- C1 counterexample: an execution that exceeds the configured timeout —
a business-logic failure — does not produce an `ExecutionResult`: `execute`
raises `SkillTimeoutError` (as its own docstring documents), refuting the
claim that only infrastructure failure may propagate out of `execute`. -/
theorem claim_C1_counterexample :
    ((SkillSandbox.execute true none "fight_melee" ⟨true, [], some "fight_melee"⟩ 30
        (.completed 0 "" "" none) .timedOut 30).1).isResult = false
    ∧ (SkillSandbox.execute true none "fight_melee" ⟨true, [], some "fight_melee"⟩ 30
        (.completed 0 "" "" none) .timedOut 30).1
      = .raisedSkillTimeout
          ("Skill '" ++ "fight_melee" ++ "' exceeded timeout of "
            ++ (⟨natChars 30⟩ : String) ++ "s") "fight_melee" 30 :=
  ⟨rfl, rfl⟩

/-- C1 amended: with the docker client initialized, `execute` folds
validation failures and crashed skill code into a returned
`ExecutionResult` with `success = false` and a human-readable error, but an
execution exceeding the configured timeout raises `SkillTimeoutError`
rather than returning; infrastructure failure aside, the timeout is thus
the one business-logic failure that propagates as an exception. -/
theorem claim_C1_failure_outcomes (skill_name : String)
    (validation : ValidationResult) (timeout : Nat) (run : ContainerRun)
    (awaited : AwaitOutcome) (elapsed : Nat) (e : String)
    (hv : validation.valid = true) :
    (SkillSandbox.execute true none skill_name ⟨false, validation.errors, none⟩ timeout
        run awaited elapsed).1
      = .result { success := false,
                  error := some ("Validation failed: "
                    ++ String.intercalate "; " validation.errors) }
    ∧ (SkillSandbox.execute true none skill_name validation timeout (.raised e)
        .inTime elapsed).1
      = .result { success := false, error := some e, execution_time := elapsed }
    ∧ (SkillSandbox.execute true none skill_name validation timeout run
        .timedOut elapsed).1
      = .raisedSkillTimeout
          ("Skill '" ++ skill_name ++ "' exceeded timeout of "
            ++ (⟨natChars timeout⟩ : String) ++ "s") skill_name timeout := by
  refine ⟨rfl, ?_, ?_⟩
  · unfold SkillSandbox.execute
    rw [hv]
    rfl
  · unfold SkillSandbox.execute
    rw [hv]
    rfl

/-- C1 witness: the three failure shapes at concrete inputs. -/
theorem claim_C1_witness :
    (⟨true, ["Skill must define an async function"], none⟩ : ValidationResult).valid = true
    ∧ (SkillSandbox.execute true none "explore" ⟨false, ["Skill must define an async function"], none⟩
        30 (.completed 0 "" "" none) .inTime 1).1
      = .result { success := false,
                  error := some ("Validation failed: " ++ String.intercalate "; "
                    ["Skill must define an async function"]) }
    ∧ (SkillSandbox.execute true none "explore"
        ⟨true, ["Skill must define an async function"], none⟩ 30
        (.raised "KeyError: 'q'") .inTime 1).1
      = .result { success := false, error := some "KeyError: 'q'", execution_time := 1 } :=
  ⟨rfl,
   (claim_C1_failure_outcomes "explore" ⟨true, ["Skill must define an async function"], none⟩
     30 (.completed 0 "" "" none) .inTime 1 "KeyError: 'q'" rfl).1,
   (claim_C1_failure_outcomes "explore" ⟨true, ["Skill must define an async function"], none⟩
     30 (.completed 0 "" "" none) .inTime 1 "KeyError: 'q'" rfl).2.1⟩

/-- C3 counterexample: at the same configuration, the cooperative
`asyncio` deadline makes `execute_code` raise (`SkillTimeoutError`), while
the SIGALRM-based preemptive timeout makes it return an `ExecutionResult`
— two different externally observed outcome shapes. -/
theorem claim_C3_counterexample :
    ((SkillSandbox.execute_code true ⟨true, [], none⟩ 2 .asyncioTimeout 2).1).isResult = false
    ∧ ((SkillSandbox.execute_code true ⟨true, [], none⟩ 2 .signalTimeout 3).1).isResult = true :=
  ⟨rfl, rfl⟩

/-- C3 amended: for valid code, the two timeout mechanisms of
`execute_code` produce different outcome kinds: the cooperative
`asyncio.TimeoutError` path re-raises as `SkillTimeoutError`, while the
SIGALRM path (the builtin `TimeoutError` raised by the installed handler)
is caught by the distinct `except TimeoutError` clause and returned as an
`ExecutionResult` with `success = false` whose error names the timeout. -/
theorem claim_C3_timeout_kinds (hasSigalrm : Bool) (validation : ValidationResult)
    (timeout elapsed : Nat) (hv : validation.valid = true) :
    (SkillSandbox.execute_code hasSigalrm validation timeout .asyncioTimeout elapsed).1
      = .raisedSkillTimeout
          ("Code execution exceeded timeout of " ++ (⟨natChars timeout⟩ : String) ++ "s")
          "<adhoc>" timeout
    ∧ (SkillSandbox.execute_code hasSigalrm validation timeout .signalTimeout elapsed).1
      = .result { success := false,
                  error := some ("Code execution timed out after "
                    ++ (⟨natChars timeout⟩ : String) ++ " seconds (possible infinite loop)"),
                  execution_time := elapsed } := by
  constructor
  · unfold SkillSandbox.execute_code
    rw [hv]
    rfl
  · unfold SkillSandbox.execute_code
    rw [hv]
    rfl

/-- C3 witness: the two branches at a concrete 2-second configuration. -/
theorem claim_C3_witness :
    (⟨true, [], none⟩ : ValidationResult).valid = true
    ∧ (SkillSandbox.execute_code true ⟨true, [], none⟩ 2 .asyncioTimeout 2).1
      = .raisedSkillTimeout
          ("Code execution exceeded timeout of " ++ (⟨natChars 2⟩ : String) ++ "s")
          "<adhoc>" 2 :=
  ⟨rfl, (claim_C3_timeout_kinds true ⟨true, [], none⟩ 2 2 rfl).1⟩

/-- C8: when validation fails, `execute` (with the docker client available)
returns the failed `ExecutionResult` immediately, and its effect trace
contains no scratch directory creation, no proxy-server start, and no
container creation: validation strictly precedes all resource allocation. -/
theorem claim_C8_validation_before_resources (initialized : Bool)
    (skill_name : String) (validation : ValidationResult) (timeout : Nat)
    (run : ContainerRun) (awaited : AwaitOutcome) (elapsed : Nat)
    (hv : validation.valid = false) :
    (SkillSandbox.execute initialized none skill_name validation timeout run
        awaited elapsed).1
      = .result { success := false,
                  error := some ("Validation failed: "
                    ++ String.intercalate "; " validation.errors) }
    ∧ Effect.createTempDir ∉ (SkillSandbox.execute initialized none skill_name validation
        timeout run awaited elapsed).2
    ∧ Effect.startProxyServer ∉ (SkillSandbox.execute initialized none skill_name validation
        timeout run awaited elapsed).2
    ∧ Effect.createContainer ∉ (SkillSandbox.execute initialized none skill_name validation
        timeout run awaited elapsed).2 := by
  unfold SkillSandbox.execute
  rw [hv]
  cases initialized <;>
    exact ⟨rfl, by simp, by simp, by simp⟩

/-- C8 witness: a concrete invalid submission allocates nothing. -/
theorem claim_C8_witness :
    (⟨false, ["Syntax error: invalid syntax"], none⟩ : ValidationResult).valid = false
    ∧ Effect.createTempDir ∉ (SkillSandbox.execute true none "explore"
        ⟨false, ["Syntax error: invalid syntax"], none⟩ 30
        (.completed 0 "" "" none) .inTime 0).2 :=
  ⟨rfl,
   (claim_C8_validation_before_resources true "explore"
     ⟨false, ["Syntax error: invalid syntax"], none⟩ 30
     (.completed 0 "" "" none) .inTime 0 rfl).2.1⟩

/-- C9: on a platform with SIGALRM, the early return that `execute_code`
takes when ad-hoc validation fails sits before the `try`/`finally`, so the
call returns with the alarm still armed (`int(timeout) + 1` seconds) and
its own handler still installed — contradicting the `finally` block's own
comment ("Always cancel the alarm and restore old handler"); every path
through the `try` does restore the state, as the second conjunct shows. -/
theorem claim_C9_sigalrm_leak :
    (SkillSandbox.execute_code true ⟨false, ["Forbidden import: os"], none⟩ 30
        (.raised "unreachable") 0).2
      = ⟨SigHandler.adhocTimeout, some 31⟩
    ∧ (SkillSandbox.execute_code true ⟨true, [], none⟩ 30 (.raised "RuntimeError") 0).2
      = ⟨SigHandler.original, none⟩
    ∧ (SkillSandbox.execute_code true ⟨true, [], none⟩ 30 .asyncioTimeout 0).2
      = ⟨SigHandler.original, none⟩
    ∧ (SkillSandbox.execute_code true ⟨true, [], none⟩ 30 .signalTimeout 0).2
      = ⟨SigHandler.original, none⟩
    ∧ (SkillSandbox.execute_code true ⟨true, [], none⟩ 30
        (.completed (.jobj []) "") 0).2
      = ⟨SigHandler.original, none⟩ :=
  ⟨rfl, rfl, rfl, rfl, rfl⟩

end Glyphbox
